import Mathlib

/-!
Verification development for the DFSS distributed file-storage coordinator.

We shallowly embed the Python source (Django app `storage`) in Lean:

* bytes are `Nat`, byte strings are `List Nat`;
* SHA-256 hex digests are abstracted as a hash function `H : List Nat → List Nat`
  passed explicitly to every definition that hashes (`hashlib.sha256(...).hexdigest()`
  in the source); concrete witnesses instantiate `H` with an injective function;
* wall-clock instants are `Nat`, latencies are `ℚ`;
* Django model rows become structures, the metadata database becomes explicit
  state threaded through the functions;
* every remote S3 call is a parameter (an "environment" oracle) recording what
  the remote side would answer; the control flow around those calls is
  translated from the source.
-/

/-- Byte strings (`bytes` in Python): lists of natural numbers. -/
abbrev Bytes := List Nat

/-- Abstract SHA-256 hex digests. -/
abbrev Digest := List Nat

/-- `Node.status` (`models.py`): `choices=[('online', ...), ('offline', ...)]`. -/
inductive NStatus where
  | online
  | offline
deriving DecidableEq, Repr

/-- A row of the `Node` model (`storage/models.py`): endpoint URL, status,
`load`, `storage_usage`, and the health-check fields.  `load` and
`storage_usage` are Django integer fields, hence `Int`; the nullable
timestamp fields are `Option Nat`, the nullable float `last_latency` is
`Option ℚ`. -/
structure DNode where
  id : Nat
  url : String
  status : NStatus
  load : Int
  storage_usage : Int
  last_check : Option Nat
  last_latency : Option ℚ
  consecutive_failures : Int
  failed_at : Option Nat
  recovered_at : Option Nat
deriving DecidableEq, Repr

/-- A fresh `Node` row as Django would create it from the field defaults of
`models.py` (`status='online'`, `load=0`, `storage_usage=0`,
`consecutive_failures=0`, nullable fields `NULL`). -/
def DNode.fresh (id : Nat) (url : String) : DNode :=
  { id := id, url := url, status := .online, load := 0, storage_usage := 0,
    last_check := none, last_latency := none, consecutive_failures := 0,
    failed_at := none, recovered_at := none }

/-- A row of the `Chunk` model: owning file id, 0-based `chunk_number`,
`checksum`, `size`, and the many-to-many `nodes` association as a list of
node ids (in association order). -/
structure ChunkRow where
  fileId : Nat
  chunkNumber : Nat
  checksum : Digest
  size : Nat
  nodeIds : List Nat
deriving DecidableEq, Repr

/-- A row of the `File` model (the fields the coordinator reads). -/
structure FileRow where
  id : Nat
  name : String
  size : Nat
deriving DecidableEq, Repr

/-- The metadata database: the three model tables, each in insertion order. -/
structure DB where
  nodes : List DNode
  files : List FileRow
  chunks : List ChunkRow
deriving DecidableEq, Repr

/-- Look a node row up by id (`Node.objects.get` / resolving an association). -/
def DB.findNode (db : DB) (nid : Nat) : Option DNode :=
  db.nodes.find? (fun n => n.id = nid)

/-- `node.save()`: overwrite the row whose id matches with the in-memory
object's current field values. -/
def DB.saveNode (db : DB) (node : DNode) : DB :=
  { db with nodes := db.nodes.map (fun n => if n.id = node.id then node else n) }

/-- Resolve a list of node ids against the node table, dropping dangling ids
(a `ManyToMany` query only returns existing rows). -/
def resolveNodes (nodes : List DNode) (ids : List Nat) : List DNode :=
  ids.filterMap (fun i => nodes.find? (fun n => n.id = i))

/-- Python's stable `list.sort` / `sorted`, as a structural insertion sort
parameterised by a strict "comes strictly earlier" test: an element is
inserted after every earlier element that compares strictly smaller, so
equal keys keep their original order (timsort is stable). -/
def stableInsert (lt : α → α → Bool) (x : α) : List α → List α
  | [] => [x]
  | y :: ys => if lt y x then y :: stableInsert lt x ys else x :: y :: ys

/-- Stable sort by the strict comparison `lt` (see `stableInsert`). -/
def stableSort (lt : α → α → Bool) : List α → List α
  | [] => []
  | x :: xs => stableInsert lt x (stableSort lt xs)

/-! ## Chunker (`storage/utils.py`, `chunk_file`) -/

/-- The loop of `chunk_file`: `file.read(chunk_size)` returns the next
`chunk_size` bytes (or fewer at the end); the loop stops on an empty read,
which also happens immediately when `chunk_size = 0` (`file.read(0) = b''`).
For each chunk the source records `(chunk_bytes, sha256_hex, len)`.

The extra `fuel` argument makes the recursion structural so that the
definition computes by kernel reduction; `chunk_file` instantiates it with
`payload.length`, which the loop can never exhaust because each iteration
consumes at least one byte of a nonempty payload. -/
def chunkLoop (H : Bytes → Digest) (chunk_size : Nat) :
    Nat → Bytes → List (Bytes × Digest × Nat)
  | 0, _ => []
  | _ + 1, [] => []
  | fuel + 1, b :: rest =>
    if chunk_size = 0 then []
    else
      let piece := (b :: rest).take chunk_size
      (piece, H piece, piece.length)
        :: chunkLoop H chunk_size fuel ((b :: rest).drop chunk_size)

/-- `chunk_file(file, chunk_size=5MB)`: split a payload into chunks,
returning the ordered list of `(bytes, checksum, size)` triples. -/
def chunk_file (H : Bytes → Digest) (payload : Bytes)
    (chunk_size : Nat := 5 * 1024 * 1024) : List (Bytes × Digest × Nat) :=
  chunkLoop H chunk_size payload.length payload

/-! ## Health monitor (`management/commands/check_node_health.py`) -/

/-- What a single `list_buckets` probe of a node did: succeed with a measured
latency, or raise an exception with a message. -/
inductive ProbeResult where
  | success (latency : ℚ)
  | failure (errMsg : String)
deriving DecidableEq, Repr

/-- `pat in s` for strings: substring containment on the character lists. -/
def strContains (s pat : String) : Bool :=
  decide (pat.data <:+: s.data)

/-- `str(e).lower()`. -/
def lowerStr (s : String) : String :=
  ⟨s.data.map Char.toLower⟩

/-- The connectivity classification of `check_node_health.handle`: the
lowercased error text contains `connect`, `connection`, `timeout` or
`endpoint`. -/
def isConnectionError (errMsg : String) : Bool :=
  let m := lowerStr errMsg
  strContains m "connect" || strContains m "connection" ||
    strContains m "timeout" || strContains m "endpoint"

/-- The incremented failure counter of a failed probe
(`check_node_health.py` lines 72–76; Python truthiness resets a zero — or
`NULL` — counter to 1). -/
def failCount (node : DNode) : Int :=
  if node.consecutive_failures = 0 then 1 else node.consecutive_failures + 1

/-- One iteration of the probe loop of `Command.handle` in
`check_node_health.py` (lines 47–99), for one node.  On success the node's
latency, check time and failure counter are updated and an offline node is
brought back online with `recovered_at = now`.  On failure the counter is
incremented (Python truthiness: a zero counter is reset to 1), `last_check`
is updated, and the node is marked offline exactly when
`((connection_error and immediate) or consecutive_failures >= threshold)`
and it is currently online. -/
def handleProbe (threshold : Int) (immediate : Bool) (now : Nat)
    (node : DNode) (r : ProbeResult) : DNode :=
  match r with
  | .success latency =>
      let node := { node with
        last_latency := some latency
        last_check := some now
        consecutive_failures := 0 }
      if node.status = .offline then
        { node with status := .online, recovered_at := some now }
      else node
  | .failure errMsg =>
      let cf : Int := failCount node
      let node := { node with consecutive_failures := cf, last_check := some now }
      let connection_error := isConnectionError errMsg
      if ((connection_error && immediate) || cf ≥ threshold)
          ∧ node.status = .online then
        { node with status := .offline, failed_at := some now }
      else node

/-! ## Control plane (`storage/tasks.py`) -/

/-- `mark_node_as_offline` (tasks.py lines 136–157): sets
`status='offline'`, `failed_at=now`, and `consecutive_failures = 999`
("High number to prevent auto-recovery"), then schedules an optimization
pass (the scheduling itself has no metadata effect). -/
def mark_node_as_offline (now : Nat) (node : DNode) : DNode :=
  { node with
    status := .offline
    failed_at := some now
    consecutive_failures := 999 }


/-! ## Upload coordinator (`storage/views/upload.py`, `UploadView`) -/

/-- `get_storage_bucket_names` (`storage/utils.py`): the primary bucket name
followed by the fallbacks, duplicates removed. -/
def get_storage_bucket_names (primary : String) : List String :=
  primary ::
    (["file-chunks", "chunks", "files", "filestore-data"].filter
      (fun b => b != primary))

/-- What the remote object stores would answer during an upload.

* `putOK nid fid i`: on node `nid`, the `upload_fileobj` of chunk `i` of file
  `fid` and the subsequent `verify_chunk_on_node` existence check
  (`head_object`; when the chunk bytes are still in hand the checksum
  re-download is skipped) both succeed.  A failed `head_bucket` only routes
  through `create_bucket_if_not_exists`, which never raises.
* `dedupVerify nid b fid i`: `verify_chunk_on_node(node, b, f"{fid}/{i}", csum)`
  without the bytes in hand (existence check plus re-download and re-hash)
  succeeds on node `nid` for bucket `b`. -/
structure UploadEnv where
  putOK : Nat → Nat → Nat → Bool
  dedupVerify : Nat → String → Nat → Nat → Bool

/-- `get_least_loaded_nodes(n)` (`storage/utils.py`): the `n` online nodes
with smallest `load`, freshly queried (`order_by('load')`, stable in row
order). -/
def get_least_loaded_nodes (db : DB) (n : Nat) : List DNode :=
  (stableSort (fun a b => a.load < b.load)
    (db.nodes.filter (fun nd => nd.status == .online))).take n

/-- `UploadView.upload_to_nodes` (upload.py lines 268–324): try each node in
order; on a successful put-and-verify, increment the in-memory object's
`load` and `storage_usage`, stamp `last_check`, save it, and collect it.
Failures are logged and skipped. -/
def upload_to_nodes (env : UploadEnv) (now : Nat) (file_id chunk_number size : Nat)
    (nodes : List DNode) (db : DB) : DB × List DNode :=
  nodes.foldl
    (fun acc node =>
      if env.putOK node.id file_id chunk_number then
        let node := { node with
          load := node.load + 1
          storage_usage := node.storage_usage + size
          last_check := some now }
        (acc.1.saveNode node, acc.2 ++ [node])
      else acc)
    (db, [])

/-- `chunk_obj.nodes.set(ids)` on the unique row `(file_id, chunk_number)`. -/
def DB.setChunkNodes (db : DB) (file_id chunk_number : Nat) (ids : List Nat) : DB :=
  { db with chunks := db.chunks.map (fun c =>
      if c.fileId = file_id ∧ c.chunkNumber = chunk_number then
        { c with nodeIds := ids }
      else c) }

/-- `chunk_obj.nodes.add(node)` on the unique row `(file_id, chunk_number)`
(a no-op when the association already exists). -/
def DB.addChunkNode (db : DB) (file_id chunk_number nid : Nat) : DB :=
  { db with chunks := db.chunks.map (fun c =>
      if c.fileId = file_id ∧ c.chunkNumber = chunk_number then
        if c.nodeIds.contains nid then c
        else { c with nodeIds := c.nodeIds ++ [nid] }
      else c) }

/-- `file_obj.delete()`: remove the file row; chunks cascade. -/
def DB.deleteFileRow (db : DB) (file_id : Nat) : DB :=
  { db with
    files := db.files.filter (fun f => ¬ f.id = file_id)
    chunks := db.chunks.filter (fun c => ¬ c.fileId = file_id) }

/-- The non-dedup arm of the chunk loop of `UploadView.post` (upload.py lines
200–229): pick the `min_required + 1` least-loaded online nodes (fresh
query), create the chunk row, upload, and fail the chunk (caller rolls the
file back) when fewer than `min_required` uploads succeeded; otherwise set
the node associations to the successful nodes. -/
def newChunkUpload (env : UploadEnv) (now : Nat) (available : List DNode)
    (min_required file_id i : Nat) (csum : Digest) (size : Nat) (db : DB) :
    DB × Bool :=
  let target_node_count := min (min_required + 1) available.length
  let nodes := get_least_loaded_nodes db target_node_count
  let db := { db with chunks := db.chunks ++ [⟨file_id, i, csum, size, []⟩] }
  let res := upload_to_nodes env now file_id i size nodes db
  if res.2.length < min_required then (res.1, false)
  else (res.1.setChunkNodes file_id i (res.2.map (fun nd => nd.id)), true)

/-- The dedup arm of the chunk loop of `UploadView.post` (upload.py lines
161–196): commit the chunk row against the verified nodes and, when they
number fewer than `min_required`, top up from the `available` snapshot
(filtered to nodes not already verified, sorted by the snapshot's stale
loads, truncated to the gap); successful top-up uploads are added to the
row's associations.  The final association count is not re-checked. -/
def dedupCommit (env : UploadEnv) (now : Nat) (available : List DNode)
    (min_required file_id i : Nat) (csum : Digest) (size : Nat)
    (verified_nodes : List DNode) (db : DB) : DB :=
  let verified_ids := verified_nodes.map (fun nd => nd.id)
  let db := { db with chunks := db.chunks ++ [⟨file_id, i, csum, size, verified_ids⟩] }
  if verified_nodes.length < min_required then
    let additional_nodes := available.filter (fun nd => ¬ verified_ids.contains nd.id)
    let additional_nodes := stableSort (fun a b => a.load < b.load) additional_nodes
    let additional_nodes := additional_nodes.take (min_required - verified_nodes.length)
    if additional_nodes.isEmpty then db
    else
      let res := upload_to_nodes env now file_id i size additional_nodes db
      res.2.foldl
        (fun d nd =>
          if verified_ids.contains nd.id then d
          else d.addChunkNode file_id i nd.id)
        res.1
  else db

/-- One iteration of the chunk loop of `UploadView.post` (upload.py lines
136–238) for chunk `i` with checksum `csum` and size `size`.  First the
dedup probe: the first existing chunk row with the same `(checksum, size)`;
its nodes are verified (online, and some bucket passes
`verify_chunk_on_node`).  With at least one verified node the chunk is
committed through `dedupCommit` (which never fails the chunk); with no
verified node, or no dedup hit, the chunk goes through `newChunkUpload`.
`available` is the snapshot of online rows taken before the loop. -/
def processChunk (env : UploadEnv) (primary : String) (now : Nat)
    (available : List DNode) (min_required file_id i : Nat)
    (csum : Digest) (size : Nat) (db : DB) : DB × Bool :=
  match db.chunks.find? (fun c => c.checksum == csum && c.size == size) with
  | some existing_chunk =>
      let existing_nodes := resolveNodes db.nodes existing_chunk.nodeIds
      let verified_nodes := existing_nodes.filter (fun nd =>
        nd.status == .online &&
          (get_storage_bucket_names primary).any (fun b =>
            env.dedupVerify nd.id b existing_chunk.fileId existing_chunk.chunkNumber))
      if verified_nodes.isEmpty then
        newChunkUpload env now available min_required file_id i csum size db
      else
        (dedupCommit env now available min_required file_id i csum size
          verified_nodes db, true)
  | none =>
      newChunkUpload env now available min_required file_id i csum size db

/-- The chunk loop of `UploadView.post`: process the indexed chunk metadata
in order; a failed chunk stops the loop (the caller rolls back). -/
def processChunks (env : UploadEnv) (primary : String) (now : Nat)
    (available : List DNode) (min_required file_id : Nat) :
    List (Nat × Digest × Nat) → DB → DB × Bool
  | [], db => (db, true)
  | (i, csum, size) :: rest, db =>
      let res := processChunk env primary now available min_required file_id i csum size db
      if res.2 then processChunks env primary now available min_required file_id rest res.1
      else (res.1, false)

/-- Result of `UploadView.post`: HTTP 201 with the file id and chunk count,
HTTP 503 `'No storage nodes available'`, or HTTP 500 after a chunk failure
rolled the file back. -/
inductive UploadResult where
  | created (file_id chunk_count : Nat)
  | noNodes
  | chunkError
deriving DecidableEq, Repr

/-- A fresh autoincrement primary key: one more than the largest id in use. -/
def freshId (taken : List Nat) : Nat :=
  taken.foldr max 0 + 1

/-- The default node endpoints created by `UploadView.post` when no online
node exists (upload.py lines 109–115). -/
def defaultNodeUrls : List String :=
  ["http://localhost:9000", "http://localhost:9002", "http://localhost:9004"]

/-- `Node.objects.get_or_create(url=url, defaults={'status': 'online'})`. -/
def getOrCreateNode (db : DB) (url : String) : DB :=
  if db.nodes.any (fun n => n.url == url) then db
  else
    { db with nodes := db.nodes ++ [DNode.fresh (freshId (db.nodes.map (fun n => n.id))) url] }

/-- Index the chunker output as `(chunk_number, checksum, size)`; the chunk
bytes themselves only travel to the remote stores, which the environment
abstracts. -/
def enumChunks (chunks_data : List (Bytes × Digest × Nat)) : List (Nat × Digest × Nat) :=
  chunks_data.enum.map (fun p => (p.1, p.2.2.1, p.2.2.2))

/-- `UploadView.post` (upload.py lines 80–266): create the file row, snapshot
the online nodes (creating the default nodes when there are none), fail with
the no-nodes error (rolling the file back) when still none are online,
otherwise chunk the payload, set
`min_required = min(2, len(available_nodes))`, and run the chunk loop; a
chunk failure rolls the file back (cascading its chunk rows). -/
def uploadPost (env : UploadEnv) (H : Bytes → Digest) (primary : String)
    (now : Nat) (name : String) (payload : Bytes) (chunk_size : Nat)
    (db0 : DB) : DB × UploadResult :=
  let file_id := freshId (db0.files.map (fun f => f.id))
  let db : DB := { db0 with files := db0.files ++ [⟨file_id, name, payload.length⟩] }
  let available := db.nodes.filter (fun n => n.status == .online)
  let state : DB × List DNode :=
    if available.isEmpty then
      let db := defaultNodeUrls.foldl getOrCreateNode db
      (db, db.nodes.filter (fun n => n.status == .online))
    else (db, available)
  let db := state.1
  let available := state.2
  if available.length < 1 then
    (db.deleteFileRow file_id, .noNodes)
  else
    let chunks_data := chunk_file H payload chunk_size
    let min_required := min 2 available.length
    let res := processChunks env primary now available min_required file_id
      (enumChunks chunks_data) db
    if res.2 then
      (res.1, .created file_id
        ((res.1.chunks.filter (fun c => c.fileId == file_id)).length))
    else (res.1.deleteFileRow file_id, .chunkError)

example : chunk_file id [1,2,3,4,5] 2 = [([1,2], [1,2], 2), ([3,4], [3,4], 2), ([5], [5], 1)] := by decide
example : strContains "xx connection reset" "connect" = true := by decide
example : strContains "access denied" "connect" = false := by decide
example : isConnectionError "Could not CONNECT to endpoint" = true := by decide

/-! ## Download coordinator (`storage/views/download.py`, `DownloadView`) -/

/-- What the remote side would answer during a download.

* `remote nid b fid i`: on node `nid`, `head_object` plus `download_fileobj`
  of key `f"{fid}/{i}"` in bucket `b` succeed and return these raw bytes
  (`find_chunk_in_node` itself checks the checksum afterwards).
* `bucketsOf nid`: the bucket names of `get_node_bucket_map(node)` whose map
  value is `True` (a cached `list_buckets` of the node, or the head-bucket
  fallback list).
* `pick nodes`: the index of the node `get_nearest_node` would measure as
  fastest (out of range meaning the all-probes-failed fallback to the
  first). -/
structure DownloadEnv where
  remote : Nat → String → Nat → Nat → Option Bytes
  bucketsOf : Nat → List String
  pick : List DNode → Nat

/-- `DownloadView.find_chunk_in_node` (download.py lines 91–143): try every
bucket of the node's bucket map; on the first bucket where the object
exists and downloads, verify the SHA-256 against the expected checksum; on
mismatch keep trying further buckets; errors skip to the next bucket. -/
def find_chunk_in_node (H : Bytes → Digest) (env : DownloadEnv)
    (node_id file_id chunk_number : Nat) (expected : Digest) : Option Bytes :=
  (env.bucketsOf node_id).findSome? (fun b =>
    match env.remote node_id b file_id chunk_number with
    | none => none
    | some data => if H data == expected then some data else none)

/-- `get_nearest_node(nodes)` (`storage/utils.py`): `None` on an empty list;
otherwise the node with lowest measured latency, falling back to the first
node when every probe fails.  Which node wins the latency race is the
environment's `pick`. -/
def get_nearest_node (env : DownloadEnv) : List DNode → Option DNode
  | [] => none
  | n :: ns => some ((n :: ns).getD (env.pick (n :: ns)) n)

/-- Python's `list.remove` under Django model equality (same primary key). -/
def removeFirstById (nid : Nat) : List DNode → List DNode
  | [] => []
  | n :: ns => if n.id = nid then ns else n :: removeFirstById nid ns

/-- download.py lines 185–196: move the nearest node to the front of the
online list. -/
def reorderNearest (env : DownloadEnv) (online : List DNode) : List DNode :=
  match get_nearest_node env online with
  | none => online
  | some nearest => nearest :: removeFirstById nearest.id online

/-- The per-node download loop (download.py lines 204–221 and 276–304): try
each node in order with `find_chunk_in_node`; the first verified result
wins, together with the node that served it; errors skip to the next
node. -/
def tryNodesLoop (H : Bytes → Digest) (env : DownloadEnv)
    (file_id chunk_number : Nat) (expected : Digest) :
    List DNode → Option (DNode × Bytes)
  | [] => none
  | n :: ns =>
    match find_chunk_in_node H env n.id file_id chunk_number expected with
    | some data => some (n, data)
    | none => tryNodesLoop H env file_id chunk_number expected ns

/-- `find_alternate_chunk_sources` (`storage/utils.py` lines 350–384): every
`(node, file_id, chunk_number)` triple of a chunk row with the same
`(checksum, size)`, excluding the given node ids, online nodes first and
offline nodes as fallback. -/
def find_alternate_chunk_sources (db : DB) (csum : Digest) (size : Nat)
    (excludeIds : List Nat) : List (DNode × Nat × Nat) :=
  let matching := db.chunks.filter (fun c => c.checksum == csum && c.size == size)
  let acc := matching.foldl
    (fun acc c =>
      let nodes := resolveNodes db.nodes c.nodeIds
      let onl := (nodes.filter (fun n => n.status == .online && ¬ excludeIds.contains n.id)).map
        (fun n => (n, c.fileId, c.chunkNumber))
      let ofl := (nodes.filter (fun n => n.status == .offline && ¬ excludeIds.contains n.id)).map
        (fun n => (n, c.fileId, c.chunkNumber))
      (acc.1 ++ onl, acc.2 ++ ofl))
    (([], []) : List (DNode × Nat × Nat) × List (DNode × Nat × Nat))
  acc.1 ++ acc.2

/-- The alternate-source loop (download.py lines 234–267): try each
`(node, alt_file_id, alt_chunk_number)` source with the original chunk's
checksum; the first verified result wins. -/
def tryAlternatesLoop (H : Bytes → Digest) (env : DownloadEnv)
    (expected : Digest) :
    List (DNode × Nat × Nat) → Option (DNode × Bytes)
  | [] => none
  | (n, alt_fid, alt_cn) :: rest =>
    match find_chunk_in_node H env n.id alt_fid alt_cn expected with
    | some data => some (n, data)
    | none => tryAlternatesLoop H env expected rest

/-- download.py lines 249–259 and 289–297: a node that served bytes while
marked offline is transitioned back to online with the failure counter
cleared — the `consecutive_failures = 999` sentinel of
`mark_node_as_offline` is not consulted. -/
def passiveRecoverNode (now : Nat) (node : DNode) : DNode :=
  { node with
    status := .online
    consecutive_failures := 0
    recovered_at := some now }

/-- The source cascade of the chunk loop of
`DownloadView.stream_file_chunks` (download.py lines 198–342), given the
already-partitioned (and nearest-first reordered) online and offline node
lists: try the online nodes, then the alternate-source cascade (recovering
an offline alternate that served bytes), then the chunk's own offline nodes
as last resort (always recovering on success); on success bump the serving
node's load; on total failure the stream raises (after scheduling an
optimization pass, which does not touch the metadata store). -/
def fetchChunkFrom (H : Bytes → Digest) (env : DownloadEnv) (now : Nat)
    (file_id : Nat) (ck : ChunkRow) (db : DB)
    (online_nodes offline_nodes : List DNode) : DB × Option Bytes :=
  let tried_ids := online_nodes.map (fun n => n.id)
  match tryNodesLoop H env file_id ck.chunkNumber ck.checksum online_nodes with
  | some (node, data) =>
      let node := { node with load := node.load + 1 }
      (db.saveNode node, some data)
  | none =>
    let alternate_sources := find_alternate_chunk_sources db ck.checksum ck.size tried_ids
    match tryAlternatesLoop H env ck.checksum alternate_sources with
    | some (node, data) =>
        let state : DB × DNode :=
          if node.status == .offline then
            let node := passiveRecoverNode now node
            (db.saveNode node, node)
          else (db, node)
        let node := { state.2 with load := state.2.load + 1 }
        (state.1.saveNode node, some data)
    | none =>
      match tryNodesLoop H env file_id ck.chunkNumber ck.checksum offline_nodes with
      | some (node, data) =>
          let node := passiveRecoverNode now node
          let db := db.saveNode node
          let node := { node with load := node.load + 1 }
          (db.saveNode node, some data)
      | none => (db, none)

/-- The body of the chunk loop of `DownloadView.stream_file_chunks`
(download.py lines 177–342) after the chunk-cache fast path: partition the
chunk's nodes by status, put the nearest online node first, then run the
source cascade (`fetchChunkFrom`). -/
def fetchChunk (H : Bytes → Digest) (env : DownloadEnv) (now : Nat)
    (file_id : Nat) (ck : ChunkRow) (db : DB) : DB × Option Bytes :=
  let chunk_nodes := resolveNodes db.nodes ck.nodeIds
  let online_nodes := chunk_nodes.filter (fun n => n.status == .online)
  let offline_nodes := chunk_nodes.filter (fun n => n.status == .offline)
  let online_nodes :=
    if online_nodes.isEmpty then online_nodes else reorderNearest env online_nodes
  fetchChunkFrom H env now file_id ck db online_nodes offline_nodes

/-- The chunk loop of `DownloadView.stream_file_chunks` (download.py lines
163–342): for each chunk row in the given (chunk-number) order, serve the
per-chunk cache when it has the key, otherwise fetch via `fetchChunk` and,
when the file is a caching candidate, remember the fetched bytes.  Returns
the updated database, the updated per-chunk cache, and the yielded chunk
byte strings (`none` when a chunk was irrecoverable and the generator
raised). -/
def streamLoop (H : Bytes → Digest) (env : DownloadEnv) (now : Nat)
    (should_cache : Bool) (file_id : Nat) :
    List ChunkRow → DB → (Nat → Option Bytes) →
    DB × (Nat → Option Bytes) × Option (List Bytes)
  | [], db, cache => (db, cache, some [])
  | ck :: rest, db, cache =>
    match cache ck.chunkNumber with
    | some cached =>
        let res := streamLoop H env now should_cache file_id rest db cache
        (res.1, res.2.1, (res.2.2).map (fun out => cached :: out))
    | none =>
      let fetched := fetchChunk H env now file_id ck db
      match fetched.2 with
      | none => (fetched.1, cache, none)
      | some data =>
        let cache' := fun k =>
          if should_cache ∧ k = ck.chunkNumber then some data else cache k
        let res := streamLoop H env now should_cache file_id rest fetched.1 cache'
        (res.1, res.2.1, (res.2.2).map (fun out => data :: out))

/-- `DownloadView.stream_file_chunks` on a file that is not in the disk
cache, after the access-count bookkeeping: `should_cache` is the value of
`should_cache_file(file_obj) and not is_file_cached(file_id)`, and `chunks`
is the file's chunk list as loaded by `get` — `order_by('chunk_number')`. -/
def stream_file_chunks (H : Bytes → Digest) (env : DownloadEnv) (now : Nat)
    (should_cache : Bool) (file_id : Nat) (chunks : List ChunkRow) (db : DB)
    (cache : Nat → Option Bytes) :
    DB × (Nat → Option Bytes) × Option (List Bytes) :=
  streamLoop H env now should_cache file_id chunks db cache

/-! ## File deletion (`storage/views/file.py`, `FileListView.delete`) -/

/-- The per-node counter update of `FileListView.delete` (file.py lines
73–80): subtract the chunk size from `storage_usage` and clamp at zero,
decrement `load` and clamp at zero. -/
def delete_chunk_node_update (size : Int) (node : DNode) : DNode :=
  let node := { node with storage_usage := node.storage_usage - size }
  let node :=
    if node.storage_usage < 0 then { node with storage_usage := 0 } else node
  let node := { node with load := node.load - 1 }
  let node := if node.load < 0 then { node with load := 0 } else node
  node

/-- `delOK nid i`: on node `nid` the `delete_object` of chunk `i` (and the
client construction before it) raised no exception. -/
structure DeleteEnv where
  delOK : Nat → Nat → Bool

/-- `FileListView.delete` (file.py lines 43–99): for each chunk of the file
and each node holding it, delete the stored object and update the node's
counters (a failure skips that node's update); finally delete the file row,
cascading its chunks.  The cache-file removal has no metadata effect. -/
def deleteFileView (env : DeleteEnv) (file_id : Nat) (db : DB) : DB :=
  let chunks := db.chunks.filter (fun c => c.fileId == file_id)
  let db := chunks.foldl
    (fun db ck =>
      (resolveNodes db.nodes ck.nodeIds).foldl
        (fun db node =>
          if env.delOK node.id ck.chunkNumber then
            db.saveNode (delete_chunk_node_update (ck.size : Int) node)
          else db)
        db)
    db
  db.deleteFileRow file_id

/-! ## Reconciler, load balancing (`management/commands/optimize_storage.py`,
the `--balance-load` section of `Command.handle`, lines 160–294) -/

/-- Metadata store plus the contents of the remote object stores, as the set
of `(node_id, file_id, chunk_number)` keys present. -/
structure OptState where
  db : DB
  objs : List (Nat × Nat × Nat)
deriving DecidableEq, Repr

/-- `put_object` on a node (present keys form a set). -/
def OptState.putObj (st : OptState) (nid fid cn : Nat) : OptState :=
  if st.objs.contains (nid, fid, cn) then st
  else { st with objs := st.objs ++ [(nid, fid, cn)] }

/-- `delete_object` on a node. -/
def OptState.delObj (st : OptState) (nid fid cn : Nat) : OptState :=
  { st with objs := st.objs.filter (fun k => k ≠ (nid, fid, cn)) }

/-- The node association list of the unique chunk row `(file_id,
chunk_number)`, freshly queried. -/
def DB.chunkNodeIds (db : DB) (file_id chunk_number : Nat) : List Nat :=
  match db.chunks.find? (fun c => c.fileId == file_id && c.chunkNumber == chunk_number) with
  | some c => c.nodeIds
  | none => []

/-- `chunk.nodes.remove(node)` on the unique row `(file_id, chunk_number)`. -/
def DB.removeChunkNode (db : DB) (file_id chunk_number nid : Nat) : DB :=
  { db with chunks := db.chunks.map (fun c =>
      if c.fileId = file_id ∧ c.chunkNumber = chunk_number then
        { c with nodeIds := c.nodeIds.filter (fun i => i ≠ nid) }
      else c) }

/-- The remote answers during balancing: `fetch nid fid cn` is the raw result
of `download_fileobj` of key `f"{fid}/{cn}"` from node `nid` (the command
verifies the checksum itself); `putOK`/`delOK` tell whether `put_object` /
`delete_object` on that node raise. -/
structure BalanceEnv where
  fetch : Nat → Nat → Nat → Option Bytes
  putOK : Nat → Nat → Nat → Bool
  delOK : Nat → Nat → Nat → Bool

/-- One chunk-move attempt of the balancing loop (optimize_storage.py lines
206–294): pick the first underloaded node that is still under the average
and does not hold the chunk; download the chunk from the source and verify
its checksum (mismatch skips); put it to the target; add the target
association; since the row (selected with more than one association) still
has another association after the source is excluded, remove the source
association and delete the source object, updating both nodes' counters —
an exception mid-way (here: at `delete_object`) leaves the association
changes in place but skips the counter updates.  The `else` arm of the
source ("adding copy instead of moving") updates only the target's
counters. -/
def balanceMoveChunk (H : Bytes → Digest) (env : BalanceEnv) (avg : ℚ)
    (srcId : Nat) (underIds : List Nat) (ck : ChunkRow) (st : OptState) :
    OptState :=
  let target? := underIds.findSome? (fun tid =>
    match st.db.findNode tid with
    | none => none
    | some tnode =>
      if (tnode.load : ℚ) ≥ avg then none
      else if (st.db.chunkNodeIds ck.fileId ck.chunkNumber).contains tid then none
      else some tnode)
  match target? with
  | none => st
  | some tnode =>
    match env.fetch srcId ck.fileId ck.chunkNumber with
    | none => st
    | some data =>
      if ¬ (H data == ck.checksum) then st
      else if ¬ env.putOK tnode.id ck.fileId ck.chunkNumber then st
      else
        let st := st.putObj tnode.id ck.fileId ck.chunkNumber
        let db := st.db.addChunkNode ck.fileId ck.chunkNumber tnode.id
        let other_nodes := (db.chunkNodeIds ck.fileId ck.chunkNumber).filter
          (fun i => i ≠ srcId)
        if ¬ other_nodes.isEmpty then
          let db := db.removeChunkNode ck.fileId ck.chunkNumber srcId
          let st := { st with db := db }
          if env.delOK srcId ck.fileId ck.chunkNumber then
            let st := st.delObj srcId ck.fileId ck.chunkNumber
            let db := st.db
            let db := match db.findNode srcId with
              | some src => db.saveNode { src with
                  storage_usage := src.storage_usage - (ck.size : Int)
                  load := src.load - 1 }
              | none => db
            let db := match db.findNode tnode.id with
              | some tgt => db.saveNode { tgt with
                  storage_usage := tgt.storage_usage + (ck.size : Int)
                  load := tgt.load + 1 }
              | none => db
            { st with db := db }
          else st
        else
          let st := { st with db := db }
          let db := match st.db.findNode tnode.id with
            | some tgt => st.db.saveNode { tgt with
                storage_usage := tgt.storage_usage + (ck.size : Int)
                load := tgt.load + 1 }
            | none => st.db
          { st with db := db }

/-- optimize_storage.py lines 206–294: walk the movable chunks of one
overloaded source in ascending-size order, stopping as soon as the source's
(current) load is no longer above the average. -/
def balanceSourceChunks (H : Bytes → Digest) (env : BalanceEnv) (avg : ℚ)
    (srcId : Nat) (underIds : List Nat) :
    List ChunkRow → OptState → OptState
  | [], st => st
  | ck :: rest, st =>
    match st.db.findNode srcId with
    | none => st
    | some src =>
      if (src.load : ℚ) ≤ avg then st
      else
        balanceSourceChunks H env avg srcId underIds rest
          (balanceMoveChunk H env avg srcId underIds ck st)

/-- optimize_storage.py lines 186–294, one overloaded source node: skip it if
its (current) load no longer exceeds the average; otherwise its movable
chunks are those it holds with more than one association
(`chunk.nodes.count() > 1`), sorted by ascending size. -/
def balanceSource (H : Bytes → Digest) (env : BalanceEnv) (avg : ℚ)
    (underIds : List Nat) (st : OptState) (srcId : Nat) : OptState :=
  match st.db.findNode srcId with
  | none => st
  | some src =>
    if (src.load : ℚ) ≤ avg then st
    else
      let chunks_to_move := st.db.chunks.filter
        (fun c => c.nodeIds.contains srcId && c.nodeIds.length > 1)
      let chunks_to_move := stableSort (fun a b => a.size < b.size) chunks_to_move
      balanceSourceChunks H env avg srcId underIds chunks_to_move st

/-- The `--balance-load` section of `Command.handle` (optimize_storage.py
lines 160–294), with `dry_run` off: compute the average load over the
online nodes, split them into overloaded (`load > 1.2·avg`) and underloaded
(`load < 0.8·avg`), return unchanged when either side is empty, and walk
the overloaded nodes in descending-load order (Python's floats are modelled
as exact rationals). -/
def balanceLoad (H : Bytes → Digest) (env : BalanceEnv) (st : OptState) :
    OptState :=
  let online := st.db.nodes.filter (fun n => n.status == .online)
  let total : Int := (online.map (fun n => n.load)).sum
  let avg : ℚ := if online.isEmpty then 0 else (total : ℚ) / (online.length : ℚ)
  let overloaded := online.filter (fun n => (n.load : ℚ) > avg * (1.2 : ℚ))
  let underloaded := online.filter (fun n => (n.load : ℚ) < avg * (0.8 : ℚ))
  if overloaded.isEmpty || underloaded.isEmpty then st
  else
    let overIds := (stableSort (fun a b => b.load < a.load) overloaded).map (fun n => n.id)
    let underIds := (stableSort (fun a b => a.load < b.load) underloaded).map (fun n => n.id)
    overIds.foldl (balanceSource H env avg underIds) st

/-! ## General helper lemmas -/

/-- A fold preserves any invariant its step preserves. -/
theorem foldlInv {α β : Type} (P : α → Prop) (f : α → β → α)
    (step : ∀ a x, P a → P (f a x)) :
    ∀ (l : List β) (a : α), P a → P (l.foldl f a) := by
  intro l
  induction l with
  | nil => intro a h; simpa using h
  | cons x xs ih => intro a h; exact ih (f a x) (step a x h)

theorem mem_stableInsert {α : Type} (lt : α → α → Bool) (x : α) (l : List α)
    (z : α) : z ∈ stableInsert lt x l ↔ z = x ∨ z ∈ l := by
  induction l with
  | nil => simp [stableInsert]
  | cons y ys ih =>
      simp only [stableInsert]
      by_cases h : lt y x = true
      · simp only [if_pos h, List.mem_cons, ih]
        tauto
      · simp only [if_neg h, List.mem_cons]

theorem mem_stableSort {α : Type} (lt : α → α → Bool) (l : List α) (z : α) :
    z ∈ stableSort lt l ↔ z ∈ l := by
  induction l with
  | nil => simp [stableSort]
  | cons y ys ih => simp [stableSort, mem_stableInsert, ih]


theorem le_foldr_max (l : List Nat) : ∀ x ∈ l, x ≤ l.foldr max 0 := by
  induction l with
  | nil => simp
  | cons y ys ih =>
      intro x hx
      rcases List.mem_cons.mp hx with h | h
      · subst h; simp [List.foldr]
      · exact le_trans (ih x h) (by simp [List.foldr])

/-- A fresh id is not among the taken ones. -/
theorem freshId_not_mem (taken : List Nat) : freshId taken ∉ taken := by
  intro hmem
  have := le_foldr_max taken _ hmem
  simp [freshId] at this

/-! ## C7: the chunker -/

/-- The property C7 asserts of `chunk_file`: the output is the ordered list
of the fixed-size slices of the payload from offset 0, each tagged with its
hash and its byte count, all chunks but the last are full-size,
concatenation reproduces the payload, and the empty payload gives the empty
sequence. -/
def chunkerOutput (H : Bytes → Digest) (payload : Bytes) (cs : Nat) : Prop :=
  (∀ i, i < (chunk_file H payload cs).length →
      (chunk_file H payload cs)[i]? =
        some ((payload.drop (cs * i)).take cs,
          H ((payload.drop (cs * i)).take cs),
          ((payload.drop (cs * i)).take cs).length)) ∧
  (∀ i, i + 1 < (chunk_file H payload cs).length →
      ((payload.drop (cs * i)).take cs).length = cs) ∧
  ((chunk_file H payload cs).map (fun t => t.1)).flatten = payload ∧
  (payload = [] → chunk_file H payload cs = [])

theorem chunkLoop_join (H : Bytes → Digest) (cs : Nat) (hcs : 0 < cs) :
    ∀ (fuel : Nat) (payload : Bytes), payload.length ≤ fuel →
      ((chunkLoop H cs fuel payload).map (fun t => t.1)).flatten = payload := by
  intro fuel
  induction fuel with
  | zero =>
      intro p hp
      have : p = [] := List.eq_nil_of_length_eq_zero (Nat.le_zero.mp hp)
      subst this
      simp [chunkLoop]
  | succ n ih =>
      intro p hp
      cases p with
      | nil => simp [chunkLoop]
      | cons b rest =>
          have hne : cs ≠ 0 := Nat.pos_iff_ne_zero.mp hcs
          have hlen : ((b :: rest).drop cs).length ≤ n := by
            simp only [List.length_drop, List.length_cons]
            simp only [List.length_cons] at hp
            omega
          simp only [chunkLoop, if_neg hne, List.map_cons, List.flatten_cons]
          rw [ih _ hlen]
          exact List.take_append_drop cs (b :: rest)

theorem chunkLoop_getElem (H : Bytes → Digest) (cs : Nat) (hcs : 0 < cs) :
    ∀ (fuel : Nat) (payload : Bytes), payload.length ≤ fuel →
      ∀ i, i < (chunkLoop H cs fuel payload).length →
        (chunkLoop H cs fuel payload)[i]? =
          some ((payload.drop (cs * i)).take cs,
            H ((payload.drop (cs * i)).take cs),
            ((payload.drop (cs * i)).take cs).length) := by
  intro fuel
  induction fuel with
  | zero =>
      intro p hp i h
      have : p = [] := List.eq_nil_of_length_eq_zero (Nat.le_zero.mp hp)
      subst this
      simp [chunkLoop] at h
  | succ n ih =>
      intro p hp i h
      cases p with
      | nil => simp [chunkLoop] at h
      | cons b rest =>
          have hne : cs ≠ 0 := Nat.pos_iff_ne_zero.mp hcs
          have hlen : ((b :: rest).drop cs).length ≤ n := by
            simp only [List.length_drop, List.length_cons]
            simp only [List.length_cons] at hp
            omega
          have hunfold : chunkLoop H cs (n + 1) (b :: rest) =
              ((b :: rest).take cs, H ((b :: rest).take cs),
                ((b :: rest).take cs).length)
                :: chunkLoop H cs n ((b :: rest).drop cs) := by
            simp [chunkLoop, if_neg hne]
          rw [hunfold] at h ⊢
          cases i with
          | zero => simp
          | succ j =>
              have h' : j < (chunkLoop H cs n ((b :: rest).drop cs)).length := by
                simpa using Nat.lt_of_succ_lt_succ h
              have hrec := ih ((b :: rest).drop cs) hlen j h'
              simp only [List.getElem?_cons_succ]
              rw [hrec]
              have harith : (((b :: rest).drop cs).drop (cs * j)) =
                  ((b :: rest).drop (cs * (j + 1))) := by
                rw [List.drop_drop]
                congr 1
                ring
              rw [harith]

theorem chunkLoop_index_lt (H : Bytes → Digest) (cs : Nat) (hcs : 0 < cs) :
    ∀ (fuel : Nat) (payload : Bytes), payload.length ≤ fuel →
      ∀ j, j < (chunkLoop H cs fuel payload).length → cs * j < payload.length := by
  intro fuel
  induction fuel with
  | zero =>
      intro p hp j h
      have : p = [] := List.eq_nil_of_length_eq_zero (Nat.le_zero.mp hp)
      subst this
      simp [chunkLoop] at h
  | succ n ih =>
      intro p hp j h
      cases p with
      | nil => simp [chunkLoop] at h
      | cons b rest =>
          have hne : cs ≠ 0 := Nat.pos_iff_ne_zero.mp hcs
          have hlen : ((b :: rest).drop cs).length ≤ n := by
            simp only [List.length_drop, List.length_cons]
            simp only [List.length_cons] at hp
            omega
          have hunfold : chunkLoop H cs (n + 1) (b :: rest) =
              ((b :: rest).take cs, H ((b :: rest).take cs),
                ((b :: rest).take cs).length)
                :: chunkLoop H cs n ((b :: rest).drop cs) := by
            simp [chunkLoop, if_neg hne]
          rw [hunfold] at h
          cases j with
          | zero => simp
          | succ k =>
              have h' : k < (chunkLoop H cs n ((b :: rest).drop cs)).length := by
                simpa using Nat.lt_of_succ_lt_succ h
              have hrec := ih ((b :: rest).drop cs) hlen k h'
              simp only [List.length_drop, List.length_cons] at hrec
              simp only [List.length_cons]
              have hcs1 : 1 ≤ cs := hcs
              calc cs * (k + 1) = cs * k + cs := by ring
                _ < rest.length + 1 := by omega

/-- C7: for every payload and positive chunk size, `chunk_file` returns the
ordered fixed-size slices of the payload from offset 0 (only the last chunk
short), tagging each with its hash and byte count; concatenation reproduces
the payload and the empty payload yields the empty sequence. -/
theorem chunk_file_matches_spec (H : Bytes → Digest) (payload : Bytes)
    (cs : Nat) (hcs : 0 < cs) : chunkerOutput H payload cs := by
  refine ⟨?_, ?_, chunkLoop_join H cs hcs payload.length payload le_rfl, ?_⟩
  · intro i h
    exact chunkLoop_getElem H cs hcs payload.length payload le_rfl i h
  · intro i h
    have hidx := chunkLoop_index_lt H cs hcs payload.length payload le_rfl (i + 1) h
    simp only [List.length_take, List.length_drop]
    have : cs * (i + 1) = cs * i + cs := by ring
    omega
  · intro hp
    subst hp
    rfl

/-- Witness for C7 at `H = id`, payload `[1, 2, 3]`, chunk size 2. -/
theorem chunk_file_matches_spec_witness :
    0 < 2 ∧ chunkerOutput id [1, 2, 3] 2 :=
  ⟨by decide, chunk_file_matches_spec id [1, 2, 3] 2 (by decide)⟩

/-! ## C5 and C9: the health probe -/

/-- C5 counterexample: with the default threshold 1 a probe failure whose
text is not connectivity-class ("access denied") still flips an online
backend offline, because the threshold arm of the condition does not
require a connectivity-class error. -/
theorem probe_nonconnectivity_flips_offline :
    isConnectionError "access denied" = false ∧
    (handleProbe 1 false 5 (DNode.fresh 1 "http://minio1:9000")
      (.failure "access denied")).status = .offline := by
  decide

/-- What a failed probe of an online backend actually does to its status:
it goes offline iff the failure is connectivity-class AND the command runs
in immediate mode, OR the incremented failure counter has reached the
threshold (any error class); when it goes offline, `failed_at` is set. -/
def failureFlipSpec (threshold : Int) (immediate : Bool) (now : Nat)
    (node : DNode) (e : String) : Prop :=
  ((handleProbe threshold immediate now node (.failure e)).status = .offline ↔
    ((isConnectionError e && immediate) = true ∨ failCount node ≥ threshold)) ∧
  ((handleProbe threshold immediate now node (.failure e)).status = .offline →
    (handleProbe threshold immediate now node (.failure e)).failed_at = some now)

/-- C5 (amended): a probe failure takes an online backend offline iff the
failure is connectivity-class and immediate mode is on, or the incremented
consecutive-failure counter reaches the threshold — the threshold arm
applies to every error class. -/
theorem handleProbe_failure_flip (threshold : Int) (immediate : Bool)
    (now : Nat) (node : DNode) (e : String) (h : node.status = .online) :
    failureFlipSpec threshold immediate now node e := by
  have hiff : (isConnectionError e && immediate
        || decide (failCount node ≥ threshold)) = true ↔
      ((isConnectionError e && immediate) = true ∨ failCount node ≥ threshold) := by
    simp
  unfold failureFlipSpec
  simp only [handleProbe, h]
  by_cases hcond : (isConnectionError e && immediate
      || decide (failCount node ≥ threshold)) = true
  · rw [if_pos ⟨hcond, trivial⟩]
    exact ⟨⟨fun _ => hiff.mp hcond, fun _ => rfl⟩, fun _ => rfl⟩
  · rw [if_neg (fun hand => hcond hand.1)]
    constructor
    · constructor
      · intro hoff
        simp [h] at hoff
      · intro hd
        exact absurd (hiff.mpr hd) hcond
    · intro hoff
      simp [h] at hoff
/-- Witness for the amended C5 at a concrete online node and failure. -/
theorem handleProbe_failure_flip_witness :
    (DNode.fresh 1 "u").status = .online ∧
    failureFlipSpec 1 false 5 (DNode.fresh 1 "u") "access denied" :=
  ⟨by decide, handleProbe_failure_flip 1 false 5 (DNode.fresh 1 "u")
    "access denied" (by decide)⟩

/-- C9 counterexample: a failed probe updates `last_check` but leaves
`last_latency` untouched (here: still `NULL` on a never-probed node). -/
theorem probe_failure_skips_latency :
    (handleProbe 1 false 7 (DNode.fresh 2 "u") (.failure "boom")).last_check
      = some 7 ∧
    (handleProbe 1 false 7 (DNode.fresh 2 "u") (.failure "boom")).last_latency
      = none := by
  decide

/-- C9 (amended): every probe updates `last_check`; `last_latency` is set to
the measured latency on success and left unchanged on failure. -/
theorem handleProbe_check_latency (threshold : Int) (immediate : Bool)
    (now : Nat) (node : DNode) (r : ProbeResult) :
    (handleProbe threshold immediate now node r).last_check = some now ∧
    (handleProbe threshold immediate now node r).last_latency =
      (match r with
        | ProbeResult.success l => some l
        | ProbeResult.failure _ => node.last_latency) := by
  cases r with
  | success l =>
      simp only [handleProbe]
      split_ifs <;> simp
  | failure e =>
      simp only [handleProbe]
      split_ifs <;> simp

/-! ## C6: the mark-offline sentinel does not suppress passive recovery -/

/-- The backend of the C6 scenario, explicitly marked offline by the control
plane at time 10 (so `consecutive_failures = 999`). -/
def nodeC6 : DNode := mark_node_as_offline 10 (DNode.fresh 1 "http://minio1:9000")

/-- Metadata for the C6 scenario: one file with one chunk, stored only on the
marked backend. -/
def dbC6 : DB := ⟨[nodeC6], [⟨5, "f", 1⟩], [⟨5, 0, [9], 1, [1]⟩]⟩

/-- The marked backend is in fact reachable and serves the chunk bytes. -/
def envC6 : DownloadEnv :=
  ⟨fun nid b fid cn =>
      if nid = 1 ∧ b = "chunks" ∧ fid = 5 ∧ cn = 0 then some [9] else none,
    fun _ => ["chunks"],
    fun _ => 0⟩

/-- C6 (code bug): a backend marked offline with the `consecutive_failures =
999` "prevent auto-recovery" sentinel is nevertheless flipped back online
(with the sentinel cleared) the moment it serves bytes during a download —
the passive-recovery code never consults the sentinel. -/
theorem marked_offline_passively_recovered :
    nodeC6.consecutive_failures = 999 ∧
    nodeC6.status = .offline ∧
    (fetchChunk id envC6 20 5 ⟨5, 0, [9], 1, [1]⟩ dbC6).2 = some [9] ∧
    ((fetchChunk id envC6 20 5 ⟨5, 0, [9], 1, [1]⟩ dbC6).1.nodes.map
      (fun n => (n.status, n.consecutive_failures, n.recovered_at)))
      = [(.online, 0, some 20)] := by
  decide

/-! ## C10: deletion clamps the per-backend counters at zero -/

/-- Field-level description of the per-node counter update of
`FileListView.delete`: decrement clamped at zero, other fields length
unchanged. -/
theorem delete_update_fields (size : Int) (node : DNode) :
    (delete_chunk_node_update size node).load = max (node.load - 1) 0 ∧
    (delete_chunk_node_update size node).storage_usage =
      max (node.storage_usage - size) 0 ∧
    (delete_chunk_node_update size node).id = node.id ∧
    (delete_chunk_node_update size node).status = node.status := by
  unfold delete_chunk_node_update
  by_cases h1 : node.storage_usage - size < 0 <;>
    by_cases h2 : node.load - 1 < 0 <;>
      simp [h1, h2, max_def] <;> omega

/-- The nonnegativity invariant of the node counters. -/
def countersNonneg (db : DB) : Prop :=
  ∀ n ∈ db.nodes, 0 ≤ n.load ∧ 0 ≤ n.storage_usage

theorem countersNonneg_saveNode (db : DB) (x : DNode)
    (hdb : countersNonneg db) (hx : 0 ≤ x.load ∧ 0 ≤ x.storage_usage) :
    countersNonneg (db.saveNode x) := by
  intro n hn
  simp only [DB.saveNode, List.mem_map] at hn
  obtain ⟨m, hm, hmn⟩ := hn
  by_cases h : m.id = x.id
  · simp only [h, if_pos rfl] at hmn
    exact hmn ▸ hx
  · simp only [if_neg h] at hmn
    exact hmn ▸ hdb m hm

/-- C10: `FileListView.delete` decrements each holding backend's `load` by 1
and `storage_usage` by the chunk's size, clamped at zero, and therefore
never drives either counter below zero. -/
theorem deleteFileView_clamps_counters :
    (∀ (size : Int) (node : DNode),
        (delete_chunk_node_update size node).load = max (node.load - 1) 0 ∧
        (delete_chunk_node_update size node).storage_usage =
          max (node.storage_usage - size) 0) ∧
    (∀ (env : DeleteEnv) (file_id : Nat) (db : DB),
        countersNonneg db →
        countersNonneg (deleteFileView env file_id db)) := by
  constructor
  · intro size node
    exact ⟨(delete_update_fields size node).1, (delete_update_fields size node).2.1⟩
  · intro env file_id db hdb
    unfold deleteFileView
    have hfinal : ∀ db0 : DB, countersNonneg db0 →
        countersNonneg (db0.deleteFileRow file_id) := by
      intro db0 h0
      intro n hn
      simp only [DB.deleteFileRow] at hn
      exact h0 n hn
    apply hfinal
    apply foldlInv countersNonneg _ _ _ _ hdb
    intro db0 ck h0
    apply foldlInv countersNonneg _ _ _ _ h0
    intro db1 node h1
    by_cases hdel : env.delOK node.id ck.chunkNumber = true
    · rw [if_pos hdel]
      apply countersNonneg_saveNode db1 _ h1
      refine ⟨?_, ?_⟩
      · rw [(delete_update_fields (ck.size : Int) node).1]
        exact le_max_right _ _
      · rw [(delete_update_fields (ck.size : Int) node).2.1]
        exact le_max_right _ _
    · rw [if_neg hdel]
      exact h1

/-- Witness for C10 on a one-node, one-chunk database. -/
theorem deleteFileView_clamps_counters_witness :
    countersNonneg ⟨[DNode.fresh 1 "u"], [⟨5, "f", 1⟩], [⟨5, 0, [9], 1, [1]⟩]⟩ ∧
    countersNonneg (deleteFileView ⟨fun _ _ => true⟩ 5
      ⟨[DNode.fresh 1 "u"], [⟨5, "f", 1⟩], [⟨5, 0, [9], 1, [1]⟩]⟩) :=
  ⟨by unfold countersNonneg; decide, deleteFileView_clamps_counters.2 ⟨fun _ _ => true⟩ 5
    ⟨[DNode.fresh 1 "u"], [⟨5, "f", 1⟩], [⟨5, 0, [9], 1, [1]⟩]⟩
    (by unfold countersNonneg; decide)⟩

/-! ## C3: replica minimum at commit time -/

/-- Frame lemma: `upload_to_nodes` touches only node rows, never the file or
chunk tables. -/
theorem upload_to_nodes_frame (env : UploadEnv) (now file_id chunk_number size : Nat)
    (nodes : List DNode) (db : DB) :
    (upload_to_nodes env now file_id chunk_number size nodes db).1.chunks = db.chunks ∧
    (upload_to_nodes env now file_id chunk_number size nodes db).1.files = db.files := by
  unfold upload_to_nodes
  apply foldlInv (fun a : DB × List DNode => a.1.chunks = db.chunks ∧ a.1.files = db.files)
  · intro a x ha
    by_cases hp : env.putOK x.id file_id chunk_number = true <;>
      simp [hp, DB.saveNode, ha]
  · exact ⟨rfl, rfl⟩

/-- The database of the C3 scenario: two online backends and a previous file
9 whose single chunk (checksum `[7]`, size 1) is associated with backend 1
only. -/
def dbC3 : DB :=
  ⟨[DNode.fresh 1 "u1", DNode.fresh 2 "u2"], [⟨9, "f1", 1⟩], [⟨9, 0, [7], 1, [1]⟩]⟩

/-- Remote behaviour for C3: dedup verification succeeds on backend 1, but
every fresh put fails (so the top-up to backend 2 fails). -/
def envC3 : UploadEnv := ⟨fun _ _ _ => false, fun nid _ _ _ => nid == 1⟩

/-- C3 counterexample: with 2 online backends (= MIN_REPLICAS) an upload that
dedups against an existing chunk verified on one backend, whose top-up put
fails, completes successfully — committing a chunk row with a single
association instead of aborting. -/
theorem dedup_topup_shortfall_committed :
    (dbC3.nodes.filter (fun n => n.status == .online)).length = 2 ∧
    (uploadPost envC3 id "b" 100 "f2" [7] 4 dbC3).2 = .created 10 1 ∧
    ((uploadPost envC3 id "b" 100 "f2" [7] 4 dbC3).1.chunks.filter
      (fun c => c.fileId == 10)) = [⟨10, 0, [7], 1, [1]⟩] ∧
    (1 : Nat) < 2 := by
  decide

/-- C3 (amended): the non-dedup path does enforce the minimum — when the
dedup probe misses and the chunk is processed successfully, the committed
row has at least `min_required` associations (otherwise the chunk fails and
the caller aborts the upload).  (The dedup path tops up without re-checking,
as the counterexample shows.) -/
theorem processChunk_nondedup_enforces_min (env : UploadEnv) (primary : String)
    (now : Nat) (available : List DNode) (min_required file_id i : Nat)
    (csum : Digest) (size : Nat) (db : DB)
    (hmiss : db.chunks.find? (fun c => c.checksum == csum && c.size == size) = none) :
    (processChunk env primary now available min_required file_id i csum size db).2 = true →
    ∃ c ∈ (processChunk env primary now available min_required file_id i csum size db).1.chunks,
      c.fileId = file_id ∧ c.chunkNumber = i ∧ min_required ≤ c.nodeIds.length := by
  unfold processChunk
  rw [hmiss]
  simp only [newChunkUpload]
  split_ifs with hlen
  · intro hfalse
    simp at hfalse
  · intro _
    have hframe := upload_to_nodes_frame env now file_id i size
      (get_least_loaded_nodes db (min (min_required + 1) available.length))
      { db with chunks := db.chunks ++ [⟨file_id, i, csum, size, []⟩] }
    refine ⟨⟨file_id, i, csum, size,
      ((upload_to_nodes env now file_id i size
        (get_least_loaded_nodes db (min (min_required + 1) available.length))
        { db with chunks := db.chunks ++ [⟨file_id, i, csum, size, []⟩] }).2.map
          (fun nd => nd.id))⟩, ?_, rfl, rfl, ?_⟩
    · simp only [DB.setChunkNodes, List.mem_map]
      refine ⟨⟨file_id, i, csum, size, []⟩, ?_, by simp⟩
      rw [hframe.1]
      simp
    · simp only [List.length_map]
      exact not_lt.mp hlen

/-- A no-chunks database with two online backends, for exercising the
non-dedup path. -/
def dbC3w : DB := ⟨[DNode.fresh 1 "u1", DNode.fresh 2 "u2"], [], []⟩

/-- Remote behaviour whose fresh puts always succeed. -/
def envC3w : UploadEnv := ⟨fun _ _ _ => true, fun _ _ _ _ => false⟩

/-- Witness for the amended C3 theorem: on an empty chunk table (dedup probe
misses) with two online backends and both puts succeeding, the committed
chunk row carries at least the required 2 associations. -/
theorem processChunk_nondedup_enforces_min_witness :
    ∃ c ∈ (processChunk envC3w "b" 100 [DNode.fresh 1 "u1", DNode.fresh 2 "u2"]
        2 10 0 [7] 1 dbC3w).1.chunks,
      c.fileId = 10 ∧ c.chunkNumber = 0 ∧ 2 ≤ c.nodeIds.length :=
  processChunk_nondedup_enforces_min envC3w "b" 100
    [DNode.fresh 1 "u1", DNode.fresh 2 "u2"] 2 10 0 [7] 1 dbC3w
    (by decide) (by decide)

/-! ## Frame lemmas about the node table during an upload -/

/-- The identifying, upload-invariant part of each node row: id, url,
status. -/
def nodesSig (db : DB) : List (Nat × String × NStatus) :=
  db.nodes.map (fun n => (n.id, n.url, n.status))

/-- `node.save()` never changes which ids the table holds, in order. -/
theorem saveNode_ids (db : DB) (x : DNode) :
    (db.saveNode x).nodes.map (fun n => n.id) = db.nodes.map (fun n => n.id) := by
  unfold DB.saveNode
  rw [List.map_map]
  apply List.map_congr_left
  intro n _
  by_cases h : n.id = x.id
  · simp [h]
  · simp [h]

/-- Saving an object whose (id, url, status) already appears in a table with
unique ids leaves the signature list unchanged (only the mutable counters
can differ). -/
theorem saveNode_sig_list (x : DNode) :
    ∀ (l : List DNode),
      (x.id, x.url, x.status) ∈ l.map (fun n => (n.id, n.url, n.status)) →
      (l.map (fun n => n.id)).Nodup →
      (l.map (fun n => if n.id = x.id then x else n)).map
          (fun n => (n.id, n.url, n.status))
        = l.map (fun n => (n.id, n.url, n.status)) := by
  intro l
  induction l with
  | nil => simp
  | cons y ys ih =>
      intro hmem hnd
      simp only [List.map_cons, List.mem_cons] at hmem
      simp only [List.map_cons, List.nodup_cons] at hnd
      rcases hmem with heq | hmem
      · simp only [Prod.mk.injEq] at heq
        obtain ⟨hid, hurl, hst⟩ := heq
        have hys : ∀ n ∈ ys, (if n.id = x.id then x else n) = n := by
          intro n hn
          rw [if_neg]
          intro hcontra
          exact hnd.1 (by
            rw [← hid, ← hcontra]
            exact List.mem_map.mpr ⟨n, hn, rfl⟩)
        have htail : ys.map (fun n => if n.id = x.id then x else n) = ys := by
          rw [List.map_congr_left hys]
          simp
        simp only [List.map_cons]
        rw [if_pos hid.symm, htail, hid, hurl, hst]
      · have hxid : x.id ∈ ys.map (fun n => n.id) := by
          obtain ⟨n, hn, hsig⟩ := List.mem_map.mp hmem
          simp only [Prod.mk.injEq] at hsig
          exact List.mem_map.mpr ⟨n, hn, hsig.1⟩
        have hyx : ¬ y.id = x.id := fun hcontra => hnd.1 (hcontra ▸ hxid)
        simp only [List.map_cons, if_neg hyx]
        rw [ih hmem hnd.2]

theorem saveNode_sig (db : DB) (x : DNode)
    (hmem : (x.id, x.url, x.status) ∈ nodesSig db)
    (hnd : (db.nodes.map (fun n => n.id)).Nodup) :
    nodesSig (db.saveNode x) = nodesSig db :=
  saveNode_sig_list x db.nodes hmem hnd

/-- A fold whose step is only applied to members preserves an invariant. -/
theorem foldlInvMem {α β : Type} (P : α → Prop) (f : α → β → α) :
    ∀ (l : List β), (∀ a x, x ∈ l → P a → P (f a x)) → ∀ a, P a → P (l.foldl f a) := by
  intro l
  induction l with
  | nil => intro _ a h; simpa using h
  | cons x xs ih =>
      intro hstep a h
      exact ih (fun a y hy => hstep a y (List.mem_cons_of_mem _ hy)) _
        (hstep a x (List.mem_cons_self _ _) h)

/-- `upload_to_nodes` only bumps counters: node ids, urls and statuses — and
the file and chunk tables — are untouched, provided it is fed node objects
whose signatures exist in the table. -/
theorem upload_to_nodes_sig (env : UploadEnv) (now file_id chunk_number size : Nat)
    (nodes : List DNode) (db : DB)
    (hnodes : ∀ nd ∈ nodes, (nd.id, nd.url, nd.status) ∈ nodesSig db)
    (hnd : (db.nodes.map (fun n => n.id)).Nodup) :
    nodesSig (upload_to_nodes env now file_id chunk_number size nodes db).1 = nodesSig db ∧
    ((upload_to_nodes env now file_id chunk_number size nodes db).1.nodes.map
      (fun n => n.id)).Nodup := by
  unfold upload_to_nodes
  apply foldlInvMem
    (fun a : DB × List DNode => nodesSig a.1 = nodesSig db ∧
      (a.1.nodes.map (fun n => n.id)).Nodup)
  · intro a x hx ha
    by_cases hp : env.putOK x.id file_id chunk_number = true
    · simp only [if_pos hp]
      have hsigx : (x.id, x.url, x.status) ∈ nodesSig a.1 := by
        rw [ha.1]; exact hnodes x hx
      constructor
      · rw [← ha.1]
        exact saveNode_sig a.1 _ hsigx ha.2
      · rw [saveNode_ids]
        exact ha.2
    · simp only [if_neg hp]
      exact ha
  · exact ⟨rfl, hnd⟩

theorem mem_get_least_loaded (db : DB) (n : Nat) (x : DNode)
    (hx : x ∈ get_least_loaded_nodes db n) : x ∈ db.nodes := by
  unfold get_least_loaded_nodes at hx
  have := List.mem_of_mem_take hx
  rw [mem_stableSort] at this
  exact List.mem_of_mem_filter this

/-- The three frame facts an upload step preserves about a database, relative
to a baseline signature list `S`, id-uniqueness, and a file table `F`. -/
def uploadFrame (S : List (Nat × String × NStatus)) (F : List FileRow)
    (db : DB) : Prop :=
  nodesSig db = S ∧ ((db.nodes.map (fun n => n.id)).Nodup) ∧ db.files = F

theorem uploadFrame_chunksOnly (S F) (db db' : DB)
    (hn : db'.nodes = db.nodes) (hf : db'.files = db.files)
    (h : uploadFrame S F db) : uploadFrame S F db' := by
  obtain ⟨h1, h2, h3⟩ := h
  exact ⟨by rw [← h1]; unfold nodesSig; rw [hn], by rw [hn]; exact h2, by rw [hf]; exact h3⟩

theorem uploadFrame_upload_to_nodes (S F) (env : UploadEnv)
    (now file_id chunk_number size : Nat) (nodes : List DNode) (db : DB)
    (hnodes : ∀ nd ∈ nodes, (nd.id, nd.url, nd.status) ∈ S)
    (h : uploadFrame S F db) :
    uploadFrame S F (upload_to_nodes env now file_id chunk_number size nodes db).1 := by
  have hsig := upload_to_nodes_sig env now file_id chunk_number size nodes db
    (fun nd hnd => by rw [h.1]; exact hnodes nd hnd) h.2.1
  have hfr := upload_to_nodes_frame env now file_id chunk_number size nodes db
  exact ⟨by rw [hsig.1]; exact h.1, hsig.2, by rw [hfr.2]; exact h.2.2⟩

theorem uploadFrame_newChunkUpload (S F) (env : UploadEnv) (now : Nat)
    (available : List DNode) (min_required file_id i : Nat)
    (csum : Digest) (size : Nat) (db : DB)
    (h : uploadFrame S F db) :
    uploadFrame S F
      (newChunkUpload env now available min_required file_id i csum size db).1 := by
  unfold newChunkUpload
  have hbase : uploadFrame S F
      { db with chunks := db.chunks ++ [⟨file_id, i, csum, size, []⟩] } :=
    uploadFrame_chunksOnly S F db _ rfl rfl h
  have hsub : ∀ nd ∈ get_least_loaded_nodes db (min (min_required + 1) available.length),
      (nd.id, nd.url, nd.status) ∈ S := by
    intro nd hmem
    rw [← h.1]
    exact List.mem_map.mpr ⟨nd, mem_get_least_loaded _ _ _ hmem, rfl⟩
  have hup := uploadFrame_upload_to_nodes S F env now file_id i size
    (get_least_loaded_nodes db (min (min_required + 1) available.length))
    { db with chunks := db.chunks ++ [⟨file_id, i, csum, size, []⟩] } hsub hbase
  by_cases hlen : (upload_to_nodes env now file_id i size
      (get_least_loaded_nodes db (min (min_required + 1) available.length))
      { db with chunks := db.chunks ++ [⟨file_id, i, csum, size, []⟩] }).2.length
      < min_required
  · simp only [if_pos hlen]
    exact hup
  · simp only [if_neg hlen]
    exact uploadFrame_chunksOnly S F _ _ rfl rfl hup

theorem uploadFrame_dedupCommit (S F) (env : UploadEnv) (now : Nat)
    (available : List DNode) (min_required file_id i : Nat)
    (csum : Digest) (size : Nat) (verified_nodes : List DNode) (db : DB)
    (hav : ∀ nd ∈ available, (nd.id, nd.url, nd.status) ∈ S)
    (h : uploadFrame S F db) :
    uploadFrame S F
      (dedupCommit env now available min_required file_id i csum size
        verified_nodes db) := by
  unfold dedupCommit
  have hbase : uploadFrame S F
      { db with chunks := db.chunks ++
          [⟨file_id, i, csum, size, verified_nodes.map (fun nd => nd.id)⟩] } :=
    uploadFrame_chunksOnly S F db _ rfl rfl h
  by_cases hvl : verified_nodes.length < min_required
  · simp only [if_pos hvl]
    by_cases hemp : ((stableSort (fun a b => a.load < b.load)
        (available.filter (fun nd =>
          ¬ (verified_nodes.map (fun nd => nd.id)).contains nd.id))).take
        (min_required - verified_nodes.length)).isEmpty
    · simp only [hemp, if_true]
      exact hbase
    · simp only [hemp, if_false]
      have hsub : ∀ nd ∈ (stableSort (fun a b => a.load < b.load)
          (available.filter (fun nd =>
            ¬ (verified_nodes.map (fun nd => nd.id)).contains nd.id))).take
          (min_required - verified_nodes.length),
          (nd.id, nd.url, nd.status) ∈ S := by
        intro nd hmem
        have := List.mem_of_mem_take hmem
        rw [mem_stableSort] at this
        exact hav nd (List.mem_of_mem_filter this)
      have hup := uploadFrame_upload_to_nodes S F env now file_id i size _ _ hsub hbase
      apply foldlInv (uploadFrame S F)
      · intro d nd hd
        by_cases hc : (verified_nodes.map (fun nd => nd.id)).contains nd.id = true
        · simp only [if_pos hc]; exact hd
        · simp only [if_neg hc]
          exact uploadFrame_chunksOnly S F d _ rfl rfl hd
      · exact hup
  · simp only [if_neg hvl]
    exact hbase

/-- `processChunk` never touches the file table and never changes node ids,
urls or statuses (given an `available` snapshot whose signatures exist in the
baseline). -/
theorem uploadFrame_processChunk (S F) (env : UploadEnv) (primary : String)
    (now : Nat) (available : List DNode) (min_required file_id i : Nat)
    (csum : Digest) (size : Nat) (db : DB)
    (hav : ∀ nd ∈ available, (nd.id, nd.url, nd.status) ∈ S)
    (h : uploadFrame S F db) :
    uploadFrame S F
      (processChunk env primary now available min_required file_id i csum size db).1 := by
  unfold processChunk
  cases hfind : db.chunks.find? (fun c => c.checksum == csum && c.size == size) with
  | none =>
      exact uploadFrame_newChunkUpload S F env now available min_required
        file_id i csum size db h
  | some existing_chunk =>
      by_cases hemp : ((resolveNodes db.nodes existing_chunk.nodeIds).filter (fun nd =>
          nd.status == .online &&
            (get_storage_bucket_names primary).any (fun b =>
              env.dedupVerify nd.id b existing_chunk.fileId
                existing_chunk.chunkNumber))).isEmpty
      · simp only [hemp, if_true]
        exact uploadFrame_newChunkUpload S F env now available min_required
          file_id i csum size db h
      · simp only [hemp, if_false]
        exact uploadFrame_dedupCommit S F env now available min_required
          file_id i csum size _ db hav h

/-- `processChunks` (the whole chunk loop) preserves the upload frame. -/
theorem uploadFrame_processChunks (S F) (env : UploadEnv) (primary : String)
    (now : Nat) (available : List DNode) (min_required file_id : Nat)
    (hav : ∀ nd ∈ available, (nd.id, nd.url, nd.status) ∈ S) :
    ∀ (l : List (Nat × Digest × Nat)) (db : DB), uploadFrame S F db →
      uploadFrame S F
        (processChunks env primary now available min_required file_id l db).1 := by
  intro l
  induction l with
  | nil => intro db h; exact h
  | cons hd tl ih =>
      intro db h
      obtain ⟨i, csum, size⟩ := hd
      simp only [processChunks]
      have hstep := uploadFrame_processChunk S F env primary now available
        min_required file_id i csum size db hav h
      by_cases hok : (processChunk env primary now available min_required
          file_id i csum size db).2 = true
      · simp only [if_pos hok]
        exact ih _ hstep
      · simp only [if_neg hok]
        exact hstep

/-! ## C4: upload with no registered backends -/

/-- C4 counterexample: with no backend registered at all, the upload creates
the three default backend rows as a side effect and completes successfully —
it does not fail with the dedicated no-backends error. -/
theorem no_backends_creates_defaults :
    (uploadPost ⟨fun _ _ _ => true, fun _ _ _ _ => true⟩ id "b" 100 "f" [7] 4
      ⟨[], [], []⟩).2 = .created 1 1 ∧
    ((uploadPost ⟨fun _ _ _ => true, fun _ _ _ _ => true⟩ id "b" 100 "f" [7] 4
      ⟨[], [], []⟩).1).nodes.map (fun n => (n.url, n.status))
      = defaultNodeUrls.map (fun u => (u, NStatus.online)) := by
  decide

/-- The three default node rows as created by the upload view. -/
def threeDefaultNodes : List DNode :=
  [DNode.fresh 1 "http://localhost:9000", DNode.fresh 2 "http://localhost:9002",
    DNode.fresh 3 "http://localhost:9004"]

/-- Their signatures. -/
def defaultSigs : List (Nat × String × NStatus) :=
  [(1, "http://localhost:9000", .online), (2, "http://localhost:9002", .online),
    (3, "http://localhost:9004", .online)]

/-- The chunk loop an empty-node-table upload ends up running, after the
three default nodes have been created. -/
def emptyTableRun (env : UploadEnv) (H : Bytes → Digest) (primary : String)
    (now : Nat) (name : String) (payload : Bytes) (chunk_size : Nat)
    (files : List FileRow) (chunks : List ChunkRow) : DB × Bool :=
  processChunks env primary now threeDefaultNodes 2
    (freshId (files.map (fun f => f.id)))
    (enumChunks (chunk_file H payload chunk_size))
    ⟨threeDefaultNodes,
      files ++ [⟨freshId (files.map (fun f => f.id)), name, payload.length⟩],
      chunks⟩

/-- On an empty node table, `uploadPost` reduces to the default-node creation
followed by the chunk loop (pure computation; `min 2 3 = 2`). -/
theorem uploadPost_empty_nodes_eq (env : UploadEnv) (H : Bytes → Digest)
    (primary : String) (now : Nat) (name : String) (payload : Bytes)
    (chunk_size : Nat) (files : List FileRow) (chunks : List ChunkRow) :
    uploadPost env H primary now name payload chunk_size ⟨[], files, chunks⟩ =
      (if (emptyTableRun env H primary now name payload chunk_size files chunks).2 then
        ((emptyTableRun env H primary now name payload chunk_size files chunks).1,
          .created (freshId (files.map (fun f => f.id)))
            (((emptyTableRun env H primary now name payload chunk_size files chunks).1.chunks.filter
              (fun c => c.fileId == freshId (files.map (fun f => f.id)))).length))
      else
        ((emptyTableRun env H primary now name payload chunk_size files chunks).1.deleteFileRow
          (freshId (files.map (fun f => f.id))), .chunkError)) := rfl

/-- `getOrCreateNode` is the identity on a table that already has the url. -/
theorem foldl_getOrCreate_id (db : DB) :
    ∀ (l : List String), (∀ url ∈ l, db.nodes.any (fun n => n.url == url) = true) →
      l.foldl getOrCreateNode db = db := by
  intro l
  induction l with
  | nil => intro _; rfl
  | cons u us ih =>
      intro hall
      have h1 : getOrCreateNode db u = db := by
        unfold getOrCreateNode
        rw [if_pos (hall u (List.mem_cons_self _ _))]
      simp only [List.foldl_cons, h1]
      exact ih (fun url hu => hall url (List.mem_cons_of_mem _ hu))

/-- C4 (amended): when no backend rows exist, the upload creates the three
default backends (as online rows, which all subsequent steps leave in place)
and proceeds — it never returns the dedicated no-backends error.  The
dedicated error, with the File rolled back, no File committed, and no
backend row created, occurs exactly when after the creation attempt no
online backend exists — e.g. when backends at the three default URLs are
registered but every backend is offline. -/
theorem uploadPost_noNodes_behaviour :
    (∀ (env : UploadEnv) (H : Bytes → Digest) (primary : String) (now : Nat)
        (name : String) (payload : Bytes) (chunk_size : Nat)
        (files : List FileRow) (chunks : List ChunkRow),
        (uploadPost env H primary now name payload chunk_size ⟨[], files, chunks⟩).2
          ≠ .noNodes ∧
        nodesSig (uploadPost env H primary now name payload chunk_size
          ⟨[], files, chunks⟩).1 = defaultSigs) ∧
    (∀ (env : UploadEnv) (H : Bytes → Digest) (primary : String) (now : Nat)
        (name : String) (payload : Bytes) (chunk_size : Nat) (db0 : DB),
        (∀ n ∈ db0.nodes, n.status = .offline) →
        (∀ url ∈ defaultNodeUrls, ∃ n ∈ db0.nodes, n.url = url) →
        (uploadPost env H primary now name payload chunk_size db0).2 = .noNodes ∧
        (uploadPost env H primary now name payload chunk_size db0).1.files = db0.files ∧
        (uploadPost env H primary now name payload chunk_size db0).1.nodes = db0.nodes) := by
  constructor
  · intro env H primary now name payload chunk_size files chunks
    have hframe : uploadFrame defaultSigs
        (files ++ [⟨freshId (files.map (fun f => f.id)), name, payload.length⟩])
        (emptyTableRun env H primary now name payload chunk_size files chunks).1 := by
      unfold emptyTableRun
      refine uploadFrame_processChunks defaultSigs
        (files ++ [(⟨freshId (files.map (fun f => f.id)), name, payload.length⟩ : FileRow)])
        env primary now threeDefaultNodes 2
        (freshId (files.map (fun f => f.id)))
        (fun nd hnd => by
          revert nd
          decide)
        (enumChunks (chunk_file H payload chunk_size))
        ⟨threeDefaultNodes,
          files ++ [⟨freshId (files.map (fun f => f.id)), name, payload.length⟩],
          chunks⟩
        ⟨rfl, (by decide : (threeDefaultNodes.map (fun n => n.id)).Nodup), rfl⟩
    rw [uploadPost_empty_nodes_eq]
    by_cases hok : (emptyTableRun env H primary now name payload chunk_size files chunks).2 = true
    · simp only [hok, if_true]
      exact ⟨fun hcontra => UploadResult.noConfusion hcontra, hframe.1⟩
    · simp only [hok, Bool.false_eq_true, if_false]
      refine ⟨fun hcontra => UploadResult.noConfusion hcontra, ?_⟩
      rw [show nodesSig ((emptyTableRun env H primary now name payload chunk_size
        files chunks).1.deleteFileRow (freshId (files.map (fun f => f.id))))
        = nodesSig (emptyTableRun env H primary now name payload chunk_size
          files chunks).1 from rfl]
      exact hframe.1
  · intro env H primary now name payload chunk_size db0 hoff hurls
    have hfilter : db0.nodes.filter (fun n => n.status == .online) = [] := by
      rw [List.filter_eq_nil_iff]
      intro n hn
      rw [hoff n hn]
      decide
    have hany : ∀ url ∈ defaultNodeUrls,
        ({ db0 with files := db0.files ++
            [⟨freshId (db0.files.map (fun f => f.id)), name, payload.length⟩] } : DB).nodes.any
          (fun n => n.url == url) = true := by
      intro url hu
      obtain ⟨n, hn, hnu⟩ := hurls url hu
      exact List.any_eq_true.mpr ⟨n, hn, by rw [hnu]; simp⟩
    have hfold := foldl_getOrCreate_id _ defaultNodeUrls hany
    have hfresh : ∀ f ∈ db0.files, ¬ f.id = freshId (db0.files.map (fun g => g.id)) := by
      intro f hf hcontra
      exact freshId_not_mem (db0.files.map (fun g => g.id))
        (hcontra ▸ List.mem_map.mpr ⟨f, hf, rfl⟩)
    simp only [uploadPost, hfilter, hfold, List.isEmpty_nil, if_true, DB.deleteFileRow]
    rw [if_pos (show ([] : List DNode).length < 1 by simp)]
    refine ⟨rfl, ?_, rfl⟩
    rw [List.filter_append]
    rw [List.filter_eq_self.mpr (by
      intro f hf
      simpa using hfresh f hf)]
    simp

/-- All-offline database that already has rows for the three default URLs. -/
def dbC4off : DB :=
  ⟨[{ DNode.fresh 1 "http://localhost:9000" with status := .offline },
    { DNode.fresh 2 "http://localhost:9002" with status := .offline },
    { DNode.fresh 3 "http://localhost:9004" with status := .offline }], [], []⟩

/-- Witness for the amended C4: with every backend offline (and the default
URLs present) the upload fails with the dedicated error, commits nothing and
creates no backend row. -/
theorem uploadPost_noNodes_behaviour_witness :
    (uploadPost ⟨fun _ _ _ => true, fun _ _ _ _ => true⟩ id "b" 3 "f" [1] 4 dbC4off).2
      = .noNodes ∧
    (uploadPost ⟨fun _ _ _ => true, fun _ _ _ _ => true⟩ id "b" 3 "f" [1] 4 dbC4off).1.files
      = dbC4off.files ∧
    (uploadPost ⟨fun _ _ _ => true, fun _ _ _ _ => true⟩ id "b" 3 "f" [1] 4 dbC4off).1.nodes
      = dbC4off.nodes :=
  uploadPost_noNodes_behaviour.2 ⟨fun _ _ _ => true, fun _ _ _ _ => true⟩ id "b" 3 "f" [1] 4
    dbC4off (by decide) (by decide)

/-! ## C2: upload with exactly one online backend -/

/-- C2 counterexample: with exactly one online backend (and `MIN_REPLICAS`
2), uploading a non-empty payload succeeds and commits a File whose chunk
has a single backend association — `min_required = min(2, 1) = 1`. -/
theorem single_backend_upload_succeeds :
    ((⟨[DNode.fresh 1 "u1"], [], []⟩ : DB).nodes.filter
      (fun n => n.status == .online)).length = 1 ∧
    (uploadPost ⟨fun _ _ _ => true, fun _ _ _ _ => true⟩ id "b" 100 "f" [7] 4
      ⟨[DNode.fresh 1 "u1"], [], []⟩).2 = .created 1 1 ∧
    (uploadPost ⟨fun _ _ _ => true, fun _ _ _ _ => true⟩ id "b" 100 "f" [7] 4
      ⟨[DNode.fresh 1 "u1"], [], []⟩).1.chunks = [⟨1, 0, [7], 1, [1]⟩] := by
  decide

/-- The loop invariant of the single-online-backend upload: the node table is
one online row with id `nid`, and every chunk row belongs to the file being
uploaded and is associated with exactly that backend. -/
def singleNodeInv (nid file_id : Nat) (db : DB) : Prop :=
  db.nodes.map (fun m => (m.id, m.status)) = [(nid, NStatus.online)] ∧
  ∀ c ∈ db.chunks, c.fileId = file_id ∧ c.nodeIds = [nid]

theorem singleNodeInv_nodes (nid file_id : Nat) (db : DB)
    (h : singleNodeInv nid file_id db) :
    ∃ m, db.nodes = [m] ∧ m.id = nid ∧ m.status = .online := by
  obtain ⟨h1, _⟩ := h
  cases hn : db.nodes with
  | nil => rw [hn] at h1; simp at h1
  | cons m rest =>
      cases rest with
      | nil =>
          rw [hn] at h1
          simp only [List.map_cons, List.map_nil, List.cons.injEq, Prod.mk.injEq] at h1
          exact ⟨m, rfl, h1.1.1, h1.1.2⟩
      | cons m2 rest2 => rw [hn] at h1; simp at h1

/-- The counter bump `upload_to_nodes` applies to a node after a successful
put (upload.py lines 304–307). -/
def bumpNode (now size : Nat) (m : DNode) : DNode :=
  { m with
    load := m.load + 1
    storage_usage := m.storage_usage + (size : Int)
    last_check := some now }

/-- `newChunkUpload` under the single-backend invariant: the chunk succeeds
(the put to the unique backend succeeds) and the invariant is preserved. -/
theorem newChunkUpload_single_node (env : UploadEnv) (now : Nat)
    (a0 : DNode) (nid file_id i : Nat) (csum : Digest) (size : Nat) (db : DB)
    (hput : env.putOK nid file_id i = true)
    (hinv : singleNodeInv nid file_id db) :
    (newChunkUpload env now [a0] 1 file_id i csum size db).2 = true ∧
    singleNodeInv nid file_id (newChunkUpload env now [a0] 1 file_id i csum size db).1 := by
  obtain ⟨m, hm, hmid, hmst⟩ := singleNodeInv_nodes nid file_id db hinv
  have hleast : get_least_loaded_nodes db (min (1 + 1) ([a0] : List DNode).length) = [m] := by
    unfold get_least_loaded_nodes
    rw [hm]
    have : (m.status == NStatus.online) = true := by rw [hmst]; rfl
    simp [List.filter, this, stableSort, stableInsert]
  have hputm : env.putOK m.id file_id i = true := by rw [hmid]; exact hput
  simp only [newChunkUpload]
  rw [hleast]
  have hup : upload_to_nodes env now file_id i size [m]
      { db with chunks := db.chunks ++ [⟨file_id, i, csum, size, []⟩] } =
      (DB.saveNode { db with chunks := db.chunks ++ [⟨file_id, i, csum, size, []⟩] }
        (bumpNode now size m), [bumpNode now size m]) := by
    unfold upload_to_nodes bumpNode
    simp only [List.foldl_cons, List.foldl_nil, hputm, if_true]
    simp
  rw [hup]
  simp only [List.length_cons, List.length_nil]
  rw [if_neg (by omega)]
  refine ⟨rfl, ?_, ?_⟩
  · have hnodes : ((DB.saveNode { db with chunks := db.chunks ++ [⟨file_id, i, csum, size, []⟩] }
        (bumpNode now size m)).setChunkNodes file_id i
          ([bumpNode now size m].map (fun nd => nd.id))).nodes
        = [bumpNode now size m] := by
      show (DB.saveNode _ _).nodes = _
      unfold DB.saveNode
      rw [hm]
      simp [bumpNode]
    rw [hnodes]
    simp [bumpNode, hmid, hmst]
  · intro c hc
    have hc' : c ∈ (db.chunks ++ [(⟨file_id, i, csum, size, []⟩ : ChunkRow)]).map
        (fun cr => if cr.fileId = file_id ∧ cr.chunkNumber = i then
          { cr with nodeIds := [(bumpNode now size m).id] } else cr) := by
      simpa [DB.setChunkNodes, DB.saveNode] using hc
    obtain ⟨cr, hcr, hceq⟩ := List.mem_map.mp hc'
    have hbid : (bumpNode now size m).id = nid := by
      rw [show (bumpNode now size m).id = m.id from rfl, hmid]
    rcases List.mem_append.mp hcr with hold | hnew
    · have hold' := hinv.2 cr hold
      by_cases hkey : cr.fileId = file_id ∧ cr.chunkNumber = i
      · rw [if_pos hkey] at hceq
        subst hceq
        exact ⟨hold'.1, by rw [hbid]⟩
      · rw [if_neg hkey] at hceq
        subst hceq
        exact hold'
    · simp only [List.mem_singleton] at hnew
      subst hnew
      rw [if_pos ⟨rfl, rfl⟩] at hceq
      subst hceq
      exact ⟨rfl, by rw [hbid]⟩

/-- `processChunk` under the single-backend invariant: the chunk always
succeeds and the invariant is preserved (the dedup hit, if any, is a row of
the same upload, associated with the unique backend). -/
theorem processChunk_single_node (env : UploadEnv) (primary : String)
    (now : Nat) (a0 : DNode) (nid file_id i : Nat) (csum : Digest) (size : Nat)
    (db : DB) (hput : env.putOK nid file_id i = true)
    (hinv : singleNodeInv nid file_id db) :
    (processChunk env primary now [a0] 1 file_id i csum size db).2 = true ∧
    singleNodeInv nid file_id
      (processChunk env primary now [a0] 1 file_id i csum size db).1 := by
  obtain ⟨m, hm, hmid, hmst⟩ := singleNodeInv_nodes nid file_id db hinv
  unfold processChunk
  cases hfind : db.chunks.find? (fun c => c.checksum == csum && c.size == size) with
  | none => exact newChunkUpload_single_node env now a0 nid file_id i csum size db hput hinv
  | some existing =>
      have hex : existing ∈ db.chunks := List.mem_of_find?_eq_some hfind
      have hexids : existing.nodeIds = [nid] := (hinv.2 existing hex).2
      have hres : resolveNodes db.nodes existing.nodeIds = [m] := by
        rw [hexids, hm]
        unfold resolveNodes
        simp [List.find?, hmid]
      by_cases hp : (m.status == NStatus.online &&
          (get_storage_bucket_names primary).any (fun b =>
            env.dedupVerify m.id b existing.fileId existing.chunkNumber)) = true
      · have hfilter : (resolveNodes db.nodes existing.nodeIds).filter (fun nd =>
            nd.status == NStatus.online &&
              (get_storage_bucket_names primary).any (fun b =>
                env.dedupVerify nd.id b existing.fileId existing.chunkNumber)) = [m] := by
          rw [hres, List.filter_singleton, hp]
          rfl
        simp only [hfilter, List.isEmpty_cons, Bool.false_eq_true, if_false]
        refine ⟨by trivial, ?_⟩
        simp only [dedupCommit]
        rw [if_neg (by simp)]
        refine ⟨hinv.1, ?_⟩
        intro c hc
        rcases List.mem_append.mp hc with hold | hnew
        · exact hinv.2 c hold
        · simp only [List.mem_singleton] at hnew
          subst hnew
          exact ⟨rfl, by simp [hmid]⟩
      · have hfilter : (resolveNodes db.nodes existing.nodeIds).filter (fun nd =>
            nd.status == NStatus.online &&
              (get_storage_bucket_names primary).any (fun b =>
                env.dedupVerify nd.id b existing.fileId existing.chunkNumber)) = [] := by
          have hp' : (m.status == NStatus.online &&
              (get_storage_bucket_names primary).any (fun b =>
                env.dedupVerify m.id b existing.fileId existing.chunkNumber)) = false := by
            simpa using hp
          rw [hres, List.filter_singleton, hp']
          rfl
        simp only [hfilter, List.isEmpty_nil, if_true]
        exact newChunkUpload_single_node env now a0 nid file_id i csum size db hput hinv

/-- The whole chunk loop under the single-backend invariant. -/
theorem processChunks_single_node (env : UploadEnv) (primary : String)
    (now : Nat) (a0 : DNode) (nid file_id : Nat)
    (hput : ∀ i, env.putOK nid file_id i = true) :
    ∀ (l : List (Nat × Digest × Nat)) (db : DB), singleNodeInv nid file_id db →
      (processChunks env primary now [a0] 1 file_id l db).2 = true ∧
      singleNodeInv nid file_id
        (processChunks env primary now [a0] 1 file_id l db).1 := by
  intro l
  induction l with
  | nil => intro db h; exact ⟨rfl, h⟩
  | cons hd tl ih =>
      intro db h
      obtain ⟨i, csum, size⟩ := hd
      have hstep := processChunk_single_node env primary now a0 nid file_id i
        csum size db (hput i) h
      simp only [processChunks]
      rw [if_pos hstep.1]
      exact ih _ hstep.2

/-- C2 (amended): with exactly one online backend the effective minimum is
`min(2, 1) = 1`.  (a) When the puts to that backend succeed, the upload of
any payload succeeds and every committed chunk row carries exactly one
backend association.  (b) When the put of the first chunk of a non-empty
payload fails, the upload fails cleanly: the chunk error is surfaced and
the File row is rolled back (no file with the fresh id remains). -/
theorem uploadPost_single_backend :
    (∀ (env : UploadEnv) (H : Bytes → Digest) (primary : String) (now : Nat)
        (name : String) (payload : Bytes) (chunk_size : Nat) (n0 : DNode)
        (files : List FileRow),
        n0.status = .online →
        (∀ i, env.putOK n0.id (freshId (files.map (fun f => f.id))) i = true) →
        (∃ k, (uploadPost env H primary now name payload chunk_size
            ⟨[n0], files, []⟩).2 = .created (freshId (files.map (fun f => f.id))) k) ∧
        ∀ c ∈ (uploadPost env H primary now name payload chunk_size
            ⟨[n0], files, []⟩).1.chunks, c.nodeIds = [n0.id]) ∧
    (∀ (env : UploadEnv) (H : Bytes → Digest) (primary : String) (now : Nat)
        (name : String) (payload : Bytes) (chunk_size : Nat) (n0 : DNode)
        (files : List FileRow),
        n0.status = .online →
        payload ≠ [] →
        0 < chunk_size →
        env.putOK n0.id (freshId (files.map (fun f => f.id))) 0 = false →
        (uploadPost env H primary now name payload chunk_size
          ⟨[n0], files, []⟩).2 = .chunkError ∧
        ∀ f ∈ (uploadPost env H primary now name payload chunk_size
          ⟨[n0], files, []⟩).1.files,
          f.id ≠ freshId (files.map (fun f => f.id))) := by
  have hcommon : ∀ (n0 : DNode), n0.status = .online →
      ([n0] : List DNode).filter (fun n => n.status == .online) = [n0] := by
    intro n0 hst
    rw [List.filter_singleton]
    rw [show (n0.status == NStatus.online) = true by rw [hst]; rfl]
    rfl
  constructor
  · intro env H primary now name payload chunk_size n0 files hst hput
    have hfilter := hcommon n0 hst
    have hrun := processChunks_single_node env primary now n0 n0.id
      (freshId (files.map (fun f => f.id))) hput
      (enumChunks (chunk_file H payload chunk_size))
      ⟨[n0], files ++ [⟨freshId (files.map (fun f => f.id)), name, payload.length⟩], []⟩
      ⟨by rw [show (⟨[n0], files ++ [⟨freshId (files.map (fun f => f.id)), name,
          payload.length⟩], []⟩ : DB).nodes = [n0] from rfl]; simp [hst],
        by intro c hc; simp at hc⟩
    simp only [uploadPost, hfilter, List.isEmpty_cons, Bool.false_eq_true, if_false]
    rw [if_neg (by simp)]
    rw [show (2 ⊓ ([n0] : List DNode).length) = 1 from rfl]
    rw [if_pos hrun.1]
    exact ⟨⟨_, rfl⟩, fun c hc => (hrun.2.2 c hc).2⟩
  · intro env H primary now name payload chunk_size n0 files hst hpay hcs hput
    have hfilter := hcommon n0 hst
    obtain ⟨b, bs, rfl⟩ := List.exists_cons_of_ne_nil hpay
    have hcf : chunk_file H (b :: bs) chunk_size =
        ((b :: bs).take chunk_size, H ((b :: bs).take chunk_size),
          ((b :: bs).take chunk_size).length)
          :: chunkLoop H chunk_size bs.length ((b :: bs).drop chunk_size) := by
      unfold chunk_file
      simp [chunkLoop, Nat.pos_iff_ne_zero.mp hcs]
    have henum : enumChunks (chunk_file H (b :: bs) chunk_size) =
        (0, H ((b :: bs).take chunk_size), ((b :: bs).take chunk_size).length)
          :: ((chunkLoop H chunk_size bs.length ((b :: bs).drop chunk_size)).enumFrom 1).map
            (fun p => (p.1, p.2.2.1, p.2.2.2)) := by
      rw [hcf]
      simp [enumChunks, List.enum]
    simp only [uploadPost, hfilter, List.isEmpty_cons, Bool.false_eq_true, if_false]
    rw [if_neg (by simp)]
    rw [show (2 ⊓ ([n0] : List DNode).length) = 1 from rfl]
    rw [henum]
    simp only [processChunks]
    have hchunk : (processChunk env primary now [n0] 1
        (freshId (files.map (fun f => f.id))) 0
        (H ((b :: bs).take chunk_size)) ((b :: bs).take chunk_size).length
        ⟨[n0], files ++ [⟨freshId (files.map (fun f => f.id)), name,
          (b :: bs).length⟩], []⟩).2 = false := by
      unfold processChunk
      rw [show (⟨[n0], files ++ [⟨freshId (files.map (fun f => f.id)), name,
        (b :: bs).length⟩], []⟩ : DB).chunks = [] from rfl]
      rw [List.find?_nil]
      simp only [newChunkUpload]
      have hleast : get_least_loaded_nodes
          ⟨[n0], files ++ [⟨freshId (files.map (fun f => f.id)), name,
            (b :: bs).length⟩], []⟩ (min (1 + 1) ([n0] : List DNode).length) = [n0] := by
        unfold get_least_loaded_nodes
        rw [show (⟨[n0], files ++ [⟨freshId (files.map (fun f => f.id)), name,
          (b :: bs).length⟩], []⟩ : DB).nodes = [n0] from rfl]
        rw [hfilter]
        simp [stableSort, stableInsert]
      rw [hleast]
      have hupl : ∀ (db1 : DB), upload_to_nodes env now
          (freshId (files.map (fun f => f.id))) 0
          ((b :: bs).take chunk_size).length [n0] db1 = (db1, []) := by
        intro db1
        unfold upload_to_nodes
        simp only [List.foldl_cons, List.foldl_nil, hput, Bool.false_eq_true, if_false]
      rw [hupl]
      rw [if_pos (by simp)]
    rw [if_neg (by rw [hchunk]; exact fun hcontra => Bool.noConfusion hcontra)]
    refine ⟨rfl, ?_⟩
    intro f hf
    have hmem := List.mem_filter.mp hf
    intro hcontra
    rw [hcontra] at hmem
    simp at hmem

/-- Witness for the amended C2: both arms at one online backend. -/
theorem uploadPost_single_backend_witness :
    ((∃ k, (uploadPost ⟨fun _ _ _ => true, fun _ _ _ _ => true⟩ id "b" 100 "f" [7] 4
        ⟨[DNode.fresh 1 "u1"], [], []⟩).2 = .created 1 k) ∧
      ∀ c ∈ (uploadPost ⟨fun _ _ _ => true, fun _ _ _ _ => true⟩ id "b" 100 "f" [7] 4
        ⟨[DNode.fresh 1 "u1"], [], []⟩).1.chunks, c.nodeIds = [1]) ∧
    ((uploadPost ⟨fun _ _ _ => false, fun _ _ _ _ => true⟩ id "b" 100 "f" [7] 4
        ⟨[DNode.fresh 1 "u1"], [], []⟩).2 = .chunkError ∧
      ∀ f ∈ (uploadPost ⟨fun _ _ _ => false, fun _ _ _ _ => true⟩ id "b" 100 "f" [7] 4
        ⟨[DNode.fresh 1 "u1"], [], []⟩).1.files, f.id ≠ 1) :=
  ⟨uploadPost_single_backend.1 ⟨fun _ _ _ => true, fun _ _ _ _ => true⟩ id "b" 100 "f"
      [7] 4 (DNode.fresh 1 "u1") [] (by decide) (fun i => rfl),
    uploadPost_single_backend.2 ⟨fun _ _ _ => false, fun _ _ _ _ => true⟩ id "b" 100 "f"
      [7] 4 (DNode.fresh 1 "u1") [] (by decide) (by decide) (by decide) rfl⟩

/-! ## C1: downloads stream the committed bytes in order -/

/-- Everything `find_chunk_in_node` returns passed the SHA-256 check. -/
theorem find_chunk_in_node_checksum (H : Bytes → Digest) (env : DownloadEnv)
    (node_id file_id chunk_number : Nat) (expected : Digest) (data : Bytes)
    (h : find_chunk_in_node H env node_id file_id chunk_number expected = some data) :
    H data = expected := by
  unfold find_chunk_in_node at h
  obtain ⟨b, hb, hfb⟩ := List.exists_of_findSome?_eq_some h
  cases hr : env.remote node_id b file_id chunk_number with
  | none => rw [hr] at hfb; exact Option.noConfusion hfb
  | some d =>
      rw [hr] at hfb
      have hred : (if (H d == expected) = true then some d else none) = some data := hfb
      by_cases hck : (H d == expected) = true
      · rw [if_pos hck] at hred
        have hd : d = data := Option.some.inj hred
        subst hd
        simpa using hck
      · rw [if_neg hck] at hred
        exact Option.noConfusion hred

/-- Everything the per-node loop returns passed the SHA-256 check. -/
theorem tryNodesLoop_checksum (H : Bytes → Digest) (env : DownloadEnv)
    (file_id chunk_number : Nat) (expected : Digest) :
    ∀ (nodes : List DNode) (node : DNode) (data : Bytes),
      tryNodesLoop H env file_id chunk_number expected nodes = some (node, data) →
      H data = expected := by
  intro nodes
  induction nodes with
  | nil => intro node data h; exact Option.noConfusion h
  | cons n ns ih =>
      intro node data h
      unfold tryNodesLoop at h
      cases hf : find_chunk_in_node H env n.id file_id chunk_number expected with
      | some d =>
          rw [hf] at h
          have := Prod.mk.injEq .. ▸ Option.some.inj h
          have hd : d = data := congrArg Prod.snd (Option.some.inj h)
          subst hd
          exact find_chunk_in_node_checksum H env n.id file_id chunk_number expected d hf
      | none =>
          rw [hf] at h
          exact ih node data h

/-- Everything the alternate-source loop returns passed the SHA-256 check
against the original chunk's checksum. -/
theorem tryAlternatesLoop_checksum (H : Bytes → Digest) (env : DownloadEnv)
    (expected : Digest) :
    ∀ (srcs : List (DNode × Nat × Nat)) (node : DNode) (data : Bytes),
      tryAlternatesLoop H env expected srcs = some (node, data) →
      H data = expected := by
  intro srcs
  induction srcs with
  | nil => intro node data h; exact Option.noConfusion h
  | cons src rest ih =>
      intro node data h
      obtain ⟨n, alt_fid, alt_cn⟩ := src
      unfold tryAlternatesLoop at h
      cases hf : find_chunk_in_node H env n.id alt_fid alt_cn expected with
      | some d =>
          rw [hf] at h
          have hd : d = data := congrArg Prod.snd (Option.some.inj h)
          subst hd
          exact find_chunk_in_node_checksum H env n.id alt_fid alt_cn expected d hf
      | none =>
          rw [hf] at h
          exact ih node data h

/-- Every byte string the source cascade yields passed the SHA-256 check. -/
theorem fetchChunkFrom_checksum (H : Bytes → Digest) (env : DownloadEnv)
    (now file_id : Nat) (ck : ChunkRow) (db : DB)
    (online_nodes offline_nodes : List DNode) (data : Bytes)
    (h : (fetchChunkFrom H env now file_id ck db online_nodes offline_nodes).2
      = some data) :
    H data = ck.checksum := by
  simp only [fetchChunkFrom] at h
  cases h1 : tryNodesLoop H env file_id ck.chunkNumber ck.checksum online_nodes with
  | some p =>
      obtain ⟨node, d⟩ := p
      rw [h1] at h
      have hd : d = data := Option.some.inj h
      subst hd
      exact tryNodesLoop_checksum H env file_id ck.chunkNumber ck.checksum
        online_nodes node d h1
  | none =>
      rw [h1] at h
      cases h2 : tryAlternatesLoop H env ck.checksum
          (find_alternate_chunk_sources db ck.checksum ck.size
            (online_nodes.map (fun n => n.id))) with
      | some p =>
          obtain ⟨node, d⟩ := p
          rw [h2] at h
          have hd : d = data := Option.some.inj h
          subst hd
          exact tryAlternatesLoop_checksum H env ck.checksum _ node d h2
      | none =>
          rw [h2] at h
          cases h3 : tryNodesLoop H env file_id ck.chunkNumber ck.checksum offline_nodes with
          | some p =>
              obtain ⟨node, d⟩ := p
              rw [h3] at h
              have hd : d = data := Option.some.inj h
              subst hd
              exact tryNodesLoop_checksum H env file_id ck.chunkNumber ck.checksum
                offline_nodes node d h3
          | none => rw [h3] at h; exact Option.noConfusion h

/-- Every byte string `fetchChunk` yields passed the SHA-256 check. -/
theorem fetchChunk_checksum (H : Bytes → Digest) (env : DownloadEnv)
    (now file_id : Nat) (ck : ChunkRow) (db : DB) (data : Bytes)
    (h : (fetchChunk H env now file_id ck db).2 = some data) :
    H data = ck.checksum :=
  fetchChunkFrom_checksum H env now file_id ck db _ _ data h

/-- The stream loop yields exactly the original chunk byte strings, in
order, when the per-chunk checksums identify them (an injective hash), the
chunk rows carry the original hashes and sizes, the chunk numbers are
distinct, and the per-chunk cache is consistent with the checksums. -/
theorem streamLoop_yields (H : Bytes → Digest) (env : DownloadEnv) (now : Nat)
    (should_cache : Bool) (file_id : Nat) (hinj : Function.Injective H) :
    ∀ (chunks : List ChunkRow) (orig : List Bytes) (db : DB)
      (cache : Nat → Option Bytes),
      List.Forall₂ (fun ck ob => ck.checksum = H ob ∧ ck.size = ob.length) chunks orig →
      (chunks.map (fun c => c.chunkNumber)).Nodup →
      (∀ ck ∈ chunks, ∀ d, cache ck.chunkNumber = some d → H d = ck.checksum) →
      ∀ out, (streamLoop H env now should_cache file_id chunks db cache).2.2 = some out →
        out = orig := by
  intro chunks
  induction chunks with
  | nil =>
      intro orig db cache hfa _ _ out hout
      cases hfa
      unfold streamLoop at hout
      simp only [Option.some.injEq] at hout
      exact hout.symm
  | cons ck rest ih =>
      intro orig db cache hfa hnd hcache out hout
      cases hfa with
      | cons hhead htail =>
          rename_i ob obs
          simp only [List.map_cons, List.nodup_cons] at hnd
          cases hc : cache ck.chunkNumber with
          | some cached =>
              have hstep : (streamLoop H env now should_cache file_id (ck :: rest) db cache).2.2
                  = Option.map (fun o => cached :: o)
                    (streamLoop H env now should_cache file_id rest db cache).2.2 := by
                simp [streamLoop, hc]
              rw [hstep] at hout
              simp only [Option.map_eq_some'] at hout
              obtain ⟨out', hrec, hcons⟩ := hout
              have hdata : cached = ob := by
                apply hinj
                rw [hcache ck (List.mem_cons_self _ _) cached hc, hhead.1]
              have hrest := ih obs db cache htail hnd.2
                (fun c hcm d hcd => hcache c (List.mem_cons_of_mem _ hcm) d hcd)
                out' hrec
              rw [← hcons, hdata, hrest]
          | none =>
              cases hfetch : (fetchChunk H env now file_id ck db).2 with
              | none =>
                  have hstep : (streamLoop H env now should_cache file_id (ck :: rest) db cache).2.2
                      = none := by
                    simp [streamLoop, hc, hfetch]
                  rw [hstep] at hout
                  exact Option.noConfusion hout
              | some data =>
                  have hstep : (streamLoop H env now should_cache file_id (ck :: rest) db cache).2.2
                      = Option.map (fun o => data :: o)
                        (streamLoop H env now should_cache file_id rest
                          (fetchChunk H env now file_id ck db).1
                          (fun k => if should_cache ∧ k = ck.chunkNumber then some data
                            else cache k)).2.2 := by
                    simp [streamLoop, hc, hfetch]
                  rw [hstep] at hout
                  simp only [Option.map_eq_some'] at hout
                  obtain ⟨out', hrec, hcons⟩ := hout
                  have hdata : data = ob := by
                    apply hinj
                    rw [fetchChunk_checksum H env now file_id ck db data hfetch, hhead.1]
                  have hcache' : ∀ c ∈ rest, ∀ d,
                      (fun k => if should_cache = true ∧ k = ck.chunkNumber then some data
                        else cache k) c.chunkNumber = some d → H d = c.checksum := by
                    intro c hcm d hcd
                    have hcd' : (if should_cache = true ∧ c.chunkNumber = ck.chunkNumber
                        then some data else cache c.chunkNumber) = some d := hcd
                    by_cases hk : should_cache = true ∧ c.chunkNumber = ck.chunkNumber
                    · exact absurd (hk.2 ▸ List.mem_map.mpr ⟨c, hcm, rfl⟩) hnd.1
                    · rw [if_neg hk] at hcd'
                      exact hcache c (List.mem_cons_of_mem _ hcm) d hcd' 
                  have hrest := ih obs (fetchChunk H env now file_id ck db).1 _ htail hnd.2
                    hcache' out' hrec
                  rw [← hcons, hdata, hrest]

/-- The C1 notion of a committed File: the chunk rows, as loaded in
chunk-number order, are numbered `0..n-1` and carry the hash and byte count
of the original chunk contents `orig`; the file size is the total original
byte count (the metadata invariants of a completed upload). -/
def committedFile (H : Bytes → Digest) (file_size : Nat)
    (chunks : List ChunkRow) (orig : List Bytes) : Prop :=
  chunks.map (fun c => c.chunkNumber) = List.range chunks.length ∧
  List.Forall₂ (fun ck ob => ck.checksum = H ob ∧ ck.size = ob.length) chunks orig ∧
  file_size = (orig.map (fun b => b.length)).sum

/-- C1: for a committed File, a successful `stream_file_chunks` yields
exactly the original chunk byte strings, one per chunk row in strictly
increasing chunk-number order (`0..n-1`); each yielded chunk hashes to the
corresponding `Chunk.checksum`, and the total yielded byte count equals
`File.size`.  The SHA-256 idealization is the hypothesis that `H` is
injective; the per-chunk cache is assumed checksum-consistent, which is
exactly what the cache writes of this loop maintain. -/
theorem stream_file_chunks_correct (H : Bytes → Digest) (env : DownloadEnv)
    (now : Nat) (should_cache : Bool) (file_id file_size : Nat)
    (chunks : List ChunkRow) (orig : List Bytes) (db : DB)
    (cache : Nat → Option Bytes)
    (hinj : Function.Injective H)
    (hcommit : committedFile H file_size chunks orig)
    (hcache : ∀ ck ∈ chunks, ∀ d, cache ck.chunkNumber = some d → H d = ck.checksum) :
    ∀ out, (stream_file_chunks H env now should_cache file_id chunks db cache).2.2
        = some out →
      out = orig ∧
      chunks.map (fun c => c.chunkNumber) = List.range chunks.length ∧
      List.Forall₂ (fun ob ck => H ob = ck.checksum) out chunks ∧
      (out.map (fun b => b.length)).sum = file_size := by
  intro out hout
  obtain ⟨hnum, hfa, hsize⟩ := hcommit
  have hnd : (chunks.map (fun c => c.chunkNumber)).Nodup := by
    rw [hnum]; exact List.nodup_range _
  have hyields := streamLoop_yields H env now should_cache file_id hinj chunks orig
    db cache hfa hnd hcache out hout
  subst hyields
  refine ⟨rfl, hnum, ?_, hsize.symm⟩
  exact hfa.flip.imp (fun a b h => h.1.symm)

/-- The backend, metadata and remote store of the C1 witness scenario: one
online backend holding the single 1-byte chunk of file 5. -/
def nodeC1 : DNode := DNode.fresh 1 "http://minio1:9000"

def dbC1 : DB := ⟨[nodeC1], [⟨5, "f", 1⟩], [⟨5, 0, [9], 1, [1]⟩]⟩

def envC1 : DownloadEnv :=
  ⟨fun nid b fid cn =>
      if nid = 1 ∧ b = "chunks" ∧ fid = 5 ∧ cn = 0 then some [9] else none,
    fun _ => ["chunks"],
    fun _ => 0⟩

/-- Witness for C1 on the one-chunk file. -/
theorem stream_file_chunks_correct_witness :
    [[9]] = ([[9]] : List Bytes) ∧
    ([⟨5, 0, [9], 1, [1]⟩] : List ChunkRow).map (fun c => c.chunkNumber)
      = List.range 1 ∧
    List.Forall₂ (fun (ob : Bytes) (ck : ChunkRow) => id ob = ck.checksum)
      [[9]] [⟨5, 0, [9], 1, [1]⟩] ∧
    (([[9]] : List Bytes).map (fun b => b.length)).sum = 1 :=
  stream_file_chunks_correct id envC1 20 false 5 1 [⟨5, 0, [9], 1, [1]⟩] [[9]]
    dbC1 (fun _ => none) (fun a b h => h)
    ⟨rfl, List.Forall₂.cons ⟨rfl, rfl⟩ List.Forall₂.nil, rfl⟩
    (fun ck hck d hd => Option.noConfusion hd)
    [[9]] (by decide)

/-! ## C8: load balancing moves multi-replica chunks and skips
single-replica ones -/

/-- The keys of the chunk table (unique together `(file, chunk_number)`). -/
def chunkKeys (db : DB) : List (Nat × Nat) :=
  db.chunks.map (fun c => (c.fileId, c.chunkNumber))

/-- The unique-together constraint of the `Chunk` model. -/
def chunkKeysUnique (db : DB) : Prop := (chunkKeys db).Nodup

/-- `find?` commutes with a map that does not change the predicate. -/
theorem find?_map_comm {α : Type} (p : α → Bool) (g : α → α)
    (hp : ∀ a, p (g a) = p a) :
    ∀ l : List α, (l.map g).find? p = (l.find? p).map g := by
  intro l
  induction l with
  | nil => rfl
  | cons y ys ih =>
      simp only [List.map_cons, List.find?]
      rw [hp y]
      cases hpy : p y with
      | true => rfl
      | false => exact ih

/-- Under unique keys, the row found for a member's key is that member. -/
theorem find?_key_of_mem_list (ck : ChunkRow) :
    ∀ (l : List ChunkRow), (l.map (fun c => (c.fileId, c.chunkNumber))).Nodup →
      ck ∈ l →
      l.find? (fun c => c.fileId == ck.fileId && c.chunkNumber == ck.chunkNumber)
        = some ck := by
  intro l
  induction l with
  | nil => intro _ hmem; exact absurd hmem (List.not_mem_nil ck)
  | cons y ys ih =>
      intro hu hmem
      simp only [List.map_cons, List.nodup_cons] at hu
      rcases List.mem_cons.mp hmem with heq | hmem'
      · subst heq
        simp [List.find?]
      · have hkey : ¬ (y.fileId = ck.fileId ∧ y.chunkNumber = ck.chunkNumber) := by
          intro hcontra
          exact hu.1 (by
            rw [hcontra.1, hcontra.2]
            exact List.mem_map.mpr ⟨ck, hmem', rfl⟩)
        have hpy : (y.fileId == ck.fileId && y.chunkNumber == ck.chunkNumber) = false := by
          by_cases h1 : y.fileId = ck.fileId
          · by_cases h2 : y.chunkNumber = ck.chunkNumber
            · exact absurd ⟨h1, h2⟩ hkey
            · simp [h1, h2]
          · simp [h1]
        simp only [List.find?, hpy]
        exact ih hu.2 hmem'

theorem find?_key_of_mem (db : DB) (hu : chunkKeysUnique db) (ck : ChunkRow)
    (hmem : ck ∈ db.chunks) :
    db.chunks.find? (fun c => c.fileId == ck.fileId && c.chunkNumber == ck.chunkNumber)
      = some ck :=
  find?_key_of_mem_list ck db.chunks hu hmem

/-- The per-row function of `addChunkNode` keeps each row's key. -/
theorem addChunkNode_keys (db : DB) (fid cn nid : Nat) :
    chunkKeys (db.addChunkNode fid cn nid) = chunkKeys db := by
  unfold chunkKeys DB.addChunkNode
  rw [List.map_map]
  apply List.map_congr_left
  intro c _
  by_cases h : (c.fileId = fid ∧ c.chunkNumber = cn)
  · by_cases h2 : nid ∈ c.nodeIds <;> simp [h, h2]
  · simp [h]

/-- The per-row function of `removeChunkNode` keeps each row's key. -/
theorem removeChunkNode_keys (db : DB) (fid cn nid : Nat) :
    chunkKeys (db.removeChunkNode fid cn nid) = chunkKeys db := by
  unfold chunkKeys DB.removeChunkNode
  rw [List.map_map]
  apply List.map_congr_left
  intro c _
  by_cases h : (c.fileId = fid ∧ c.chunkNumber = cn) <;> simp [h]

/-- `addChunkNode` at one key read back at another key: unchanged. -/
theorem chunkNodeIds_addChunkNode_ne (db : DB) (fid cn nid fid' cn' : Nat)
    (hne : ¬ (fid' = fid ∧ cn' = cn)) :
    (db.addChunkNode fid cn nid).chunkNodeIds fid' cn' = db.chunkNodeIds fid' cn' := by
  unfold DB.chunkNodeIds DB.addChunkNode
  rw [show ({ db with chunks := db.chunks.map (fun c =>
      if c.fileId = fid ∧ c.chunkNumber = cn then
        if c.nodeIds.contains nid then c
        else { c with nodeIds := c.nodeIds ++ [nid] }
      else c) } : DB).chunks = db.chunks.map (fun c =>
      if c.fileId = fid ∧ c.chunkNumber = cn then
        if c.nodeIds.contains nid then c
        else { c with nodeIds := c.nodeIds ++ [nid] }
      else c) from rfl]
  rw [find?_map_comm _ _ (by
    intro a
    by_cases h : (a.fileId = fid ∧ a.chunkNumber = cn)
    · by_cases h2 : nid ∈ a.nodeIds <;> simp [h, h2]
    · simp [h])]
  cases hf : db.chunks.find? (fun c => c.fileId == fid' && c.chunkNumber == cn') with
  | none => rfl
  | some row =>
      have hrow : row.fileId = fid' ∧ row.chunkNumber = cn' := by
        have := List.find?_some hf
        simp only [Bool.and_eq_true, beq_iff_eq] at this
        exact this
      have hnot : ¬ (row.fileId = fid ∧ row.chunkNumber = cn) := by
        intro hcontra
        exact hne ⟨by rw [← hrow.1, hcontra.1], by rw [← hrow.2, hcontra.2]⟩
      simp [hnot]

/-- `addChunkNode` read back at the same key: the association appended (when
absent). -/
theorem chunkNodeIds_addChunkNode_self (db : DB) (fid cn nid : Nat)
    (row : ChunkRow)
    (hf : db.chunks.find? (fun c => c.fileId == fid && c.chunkNumber == cn) = some row)
    (habs : nid ∉ row.nodeIds) :
    (db.addChunkNode fid cn nid).chunkNodeIds fid cn = row.nodeIds ++ [nid] := by
  unfold DB.chunkNodeIds DB.addChunkNode
  rw [show ({ db with chunks := db.chunks.map (fun c =>
      if c.fileId = fid ∧ c.chunkNumber = cn then
        if c.nodeIds.contains nid then c
        else { c with nodeIds := c.nodeIds ++ [nid] }
      else c) } : DB).chunks = db.chunks.map (fun c =>
      if c.fileId = fid ∧ c.chunkNumber = cn then
        if c.nodeIds.contains nid then c
        else { c with nodeIds := c.nodeIds ++ [nid] }
      else c) from rfl]
  rw [find?_map_comm _ _ (by
    intro a
    by_cases h : (a.fileId = fid ∧ a.chunkNumber = cn)
    · by_cases h2 : nid ∈ a.nodeIds <;> simp [h, h2]
    · simp [h])]
  rw [hf]
  have hrow : row.fileId = fid ∧ row.chunkNumber = cn := by
    have := List.find?_some hf
    simp only [Bool.and_eq_true, beq_iff_eq] at this
    exact this
  simp [hrow, habs]

/-- `removeChunkNode` read back at the same key: the association filtered
out. -/
theorem chunkNodeIds_removeChunkNode_self (db : DB) (fid cn nid : Nat)
    (row : ChunkRow)
    (hf : db.chunks.find? (fun c => c.fileId == fid && c.chunkNumber == cn) = some row) :
    (db.removeChunkNode fid cn nid).chunkNodeIds fid cn
      = row.nodeIds.filter (fun i => i ≠ nid) := by
  unfold DB.chunkNodeIds DB.removeChunkNode
  rw [show ({ db with chunks := db.chunks.map (fun c =>
      if c.fileId = fid ∧ c.chunkNumber = cn then
        { c with nodeIds := c.nodeIds.filter (fun i => i ≠ nid) }
      else c) } : DB).chunks = db.chunks.map (fun c =>
      if c.fileId = fid ∧ c.chunkNumber = cn then
        { c with nodeIds := c.nodeIds.filter (fun i => i ≠ nid) }
      else c) from rfl]
  rw [find?_map_comm _ _ (by
    intro a
    by_cases h : (a.fileId = fid ∧ a.chunkNumber = cn) <;> simp [h])]
  rw [hf]
  have hrow : row.fileId = fid ∧ row.chunkNumber = cn := by
    have := List.find?_some hf
    simp only [Bool.and_eq_true, beq_iff_eq] at this
    exact this
  simp [hrow]

/-- `removeChunkNode` at one key read back at another key: unchanged. -/
theorem chunkNodeIds_removeChunkNode_ne (db : DB) (fid cn nid fid' cn' : Nat)
    (hne : ¬ (fid' = fid ∧ cn' = cn)) :
    (db.removeChunkNode fid cn nid).chunkNodeIds fid' cn' = db.chunkNodeIds fid' cn' := by
  unfold DB.chunkNodeIds DB.removeChunkNode
  rw [show ({ db with chunks := db.chunks.map (fun c =>
      if c.fileId = fid ∧ c.chunkNumber = cn then
        { c with nodeIds := c.nodeIds.filter (fun i => i ≠ nid) }
      else c) } : DB).chunks = db.chunks.map (fun c =>
      if c.fileId = fid ∧ c.chunkNumber = cn then
        { c with nodeIds := c.nodeIds.filter (fun i => i ≠ nid) }
      else c) from rfl]
  rw [find?_map_comm _ _ (by
    intro a
    by_cases h : (a.fileId = fid ∧ a.chunkNumber = cn) <;> simp [h])]
  cases hf : db.chunks.find? (fun c => c.fileId == fid' && c.chunkNumber == cn') with
  | none => rfl
  | some row =>
      have hrow : row.fileId = fid' ∧ row.chunkNumber = cn' := by
        have := List.find?_some hf
        simp only [Bool.and_eq_true, beq_iff_eq] at this
        exact this
      have hnot : ¬ (row.fileId = fid ∧ row.chunkNumber = cn) := by
        intro hcontra
        exact hne ⟨by rw [← hrow.1, hcontra.1], by rw [← hrow.2, hcontra.2]⟩
      simp [hnot]

/-- The target-selection stage of `balanceMoveChunk`, split out so that case
analysis on its result is possible. -/
def balanceTarget (avg : ℚ) (underIds : List Nat) (ck : ChunkRow)
    (st : OptState) : Option DNode :=
  underIds.findSome? (fun tid =>
    match st.db.findNode tid with
    | none => none
    | some tnode =>
      if (tnode.load : ℚ) ≥ avg then none
      else if (st.db.chunkNodeIds ck.fileId ck.chunkNumber).contains tid then none
      else some tnode)

/-- The source-node statistics update after a successful move. -/
def bumpSrcStats (db : DB) (srcId : Nat) (sz : Nat) : DB :=
  match db.findNode srcId with
  | some src => db.saveNode { src with
      storage_usage := src.storage_usage - (sz : Int)
      load := src.load - 1 }
  | none => db

/-- The target-node statistics update after a successful copy or move. -/
def bumpTgtStats (db : DB) (tid : Nat) (sz : Nat) : DB :=
  match db.findNode tid with
  | some tgt => db.saveNode { tgt with
      storage_usage := tgt.storage_usage + (sz : Int)
      load := tgt.load + 1 }
  | none => db

/-- The body of `balanceMoveChunk` once a target node has been selected. -/
def balanceMoveGo (H : Bytes → Digest) (env : BalanceEnv) (srcId : Nat)
    (ck : ChunkRow) (st : OptState) (tnode : DNode) : OptState :=
  match env.fetch srcId ck.fileId ck.chunkNumber with
  | none => st
  | some data =>
    if ¬ (H data == ck.checksum) then st
    else if ¬ env.putOK tnode.id ck.fileId ck.chunkNumber then st
    else
      let st := st.putObj tnode.id ck.fileId ck.chunkNumber
      let db := st.db.addChunkNode ck.fileId ck.chunkNumber tnode.id
      let other_nodes := (db.chunkNodeIds ck.fileId ck.chunkNumber).filter
        (fun i => i ≠ srcId)
      if ¬ other_nodes.isEmpty then
        let db := db.removeChunkNode ck.fileId ck.chunkNumber srcId
        let st := { st with db := db }
        if env.delOK srcId ck.fileId ck.chunkNumber then
          let st := st.delObj srcId ck.fileId ck.chunkNumber
          { st with db := bumpTgtStats (bumpSrcStats st.db srcId ck.size) tnode.id ck.size }
        else st
      else
        let st := { st with db := db }
        { st with db := bumpTgtStats st.db tnode.id ck.size }

theorem bumpSrcStats_chunks (db : DB) (srcId sz : Nat) :
    (bumpSrcStats db srcId sz).chunks = db.chunks := by
  unfold bumpSrcStats; cases db.findNode srcId <;> rfl

theorem bumpTgtStats_chunks (db : DB) (tid sz : Nat) :
    (bumpTgtStats db tid sz).chunks = db.chunks := by
  unfold bumpTgtStats; cases db.findNode tid <;> rfl

theorem balanceMoveChunk_eq (H : Bytes → Digest) (envB : BalanceEnv)
    (avg : ℚ) (srcId : Nat) (underIds : List Nat) (ck : ChunkRow) (st : OptState) :
    balanceMoveChunk H envB avg srcId underIds ck st =
      match balanceTarget avg underIds ck st with
      | none => st
      | some tnode => balanceMoveGo H envB srcId ck st tnode := rfl

theorem putObj_db (st : OptState) (nid fid cn : Nat) :
    (st.putObj nid fid cn).db = st.db := by
  unfold OptState.putObj; split <;> rfl

theorem balanceMoveGo_chunks (H : Bytes → Digest) (envB : BalanceEnv)
    (srcId : Nat) (ck : ChunkRow) (st : OptState) (tnode : DNode) :
    (balanceMoveGo H envB srcId ck st tnode).db.chunks = st.db.chunks ∨
    (balanceMoveGo H envB srcId ck st tnode).db.chunks
      = (st.db.addChunkNode ck.fileId ck.chunkNumber tnode.id).chunks ∨
    (balanceMoveGo H envB srcId ck st tnode).db.chunks
      = ((st.db.addChunkNode ck.fileId ck.chunkNumber tnode.id).removeChunkNode
          ck.fileId ck.chunkNumber srcId).chunks := by
  unfold balanceMoveGo
  cases hfetch : envB.fetch srcId ck.fileId ck.chunkNumber with
  | none => left; rfl
  | some data =>
      dsimp only
      by_cases hh : (H data == ck.checksum) = true
      · rw [if_neg (not_not_intro hh)]
        by_cases hput : envB.putOK tnode.id ck.fileId ck.chunkNumber = true
        · rw [if_neg (not_not_intro hput)]
          by_cases hother :
              ((((st.putObj tnode.id ck.fileId ck.chunkNumber).db.addChunkNode
                  ck.fileId ck.chunkNumber tnode.id).chunkNodeIds
                  ck.fileId ck.chunkNumber).filter (fun i => i ≠ srcId)).isEmpty = true
          · rw [if_neg (not_not_intro hother)]
            right; left
            simp only [bumpTgtStats_chunks, putObj_db]
          · rw [if_pos hother]
            by_cases hdel : envB.delOK srcId ck.fileId ck.chunkNumber = true
            · rw [if_pos hdel]
              right; right
              simp only [bumpTgtStats_chunks, bumpSrcStats_chunks, putObj_db]
              rfl
            · rw [if_neg hdel]
              right; right
              simp only [putObj_db]
        · rw [if_pos hput]; left; rfl
      · rw [if_pos hh]; left; rfl

/-- A chunk table can only change during a balance move by an
`addChunkNode`, possibly followed by a `removeChunkNode`, both at the moved
chunk's key. -/
theorem balanceMoveChunk_chunks (H : Bytes → Digest) (envB : BalanceEnv)
    (avg : ℚ) (srcId : Nat) (underIds : List Nat) (ck : ChunkRow) (st : OptState) :
    (balanceMoveChunk H envB avg srcId underIds ck st).db.chunks = st.db.chunks ∨
    ∃ tid,
      (balanceMoveChunk H envB avg srcId underIds ck st).db.chunks
        = (st.db.addChunkNode ck.fileId ck.chunkNumber tid).chunks ∨
      (balanceMoveChunk H envB avg srcId underIds ck st).db.chunks
        = ((st.db.addChunkNode ck.fileId ck.chunkNumber tid).removeChunkNode
            ck.fileId ck.chunkNumber srcId).chunks := by
  rw [balanceMoveChunk_eq]
  cases htarget : balanceTarget avg underIds ck st with
  | none => left; rfl
  | some tnode =>
      rcases balanceMoveGo_chunks H envB srcId ck st tnode with h | h | h
      · left; exact h
      · right; exact ⟨tnode.id, Or.inl h⟩
      · right; exact ⟨tnode.id, Or.inr h⟩

/-- Key-uniqueness plus a known, short association list at one key. -/
def frozenRow (fid cn : Nat) (ids0 : List Nat) (st : OptState) : Prop :=
  chunkKeysUnique st.db ∧ st.db.chunkNodeIds fid cn = ids0

theorem chunkKeys_congr (db db' : DB) (h : db.chunks = db'.chunks) :
    chunkKeys db = chunkKeys db' := by
  unfold chunkKeys; rw [h]

theorem chunkNodeIds_congr (db db' : DB) (h : db.chunks = db'.chunks)
    (fid cn : Nat) : db.chunkNodeIds fid cn = db'.chunkNodeIds fid cn := by
  unfold DB.chunkNodeIds; rw [h]

theorem frozenRow_balanceMoveChunk (H : Bytes → Digest) (envB : BalanceEnv)
    (avg : ℚ) (srcId : Nat) (underIds : List Nat) (ck : ChunkRow)
    (fid cn : Nat) (ids0 : List Nat) (st : OptState)
    (hkey : ¬ (ck.fileId = fid ∧ ck.chunkNumber = cn))
    (h : frozenRow fid cn ids0 st) :
    frozenRow fid cn ids0 (balanceMoveChunk H envB avg srcId underIds ck st) := by
  have hkey' : ¬ (fid = ck.fileId ∧ cn = ck.chunkNumber) :=
    fun hc => hkey ⟨hc.1.symm, hc.2.symm⟩
  rcases balanceMoveChunk_chunks H envB avg srcId underIds ck st with
    heq | ⟨tid, heq | heq⟩
  · exact ⟨by
      unfold chunkKeysUnique
      rw [chunkKeys_congr _ _ heq]
      exact h.1,
      by rw [chunkNodeIds_congr _ _ heq]; exact h.2⟩
  · refine ⟨?_, ?_⟩
    · unfold chunkKeysUnique
      rw [chunkKeys_congr _ _ heq, addChunkNode_keys]
      exact h.1
    · rw [chunkNodeIds_congr _ _ heq, chunkNodeIds_addChunkNode_ne _ _ _ _ _ _ hkey']
      exact h.2
  · refine ⟨?_, ?_⟩
    · unfold chunkKeysUnique
      rw [chunkKeys_congr _ _ heq, removeChunkNode_keys, addChunkNode_keys]
      exact h.1
    · rw [chunkNodeIds_congr _ _ heq, chunkNodeIds_removeChunkNode_ne _ _ _ _ _ _ hkey',
        chunkNodeIds_addChunkNode_ne _ _ _ _ _ _ hkey']
      exact h.2

theorem frozenRow_balanceSourceChunks (H : Bytes → Digest) (envB : BalanceEnv)
    (avg : ℚ) (srcId : Nat) (underIds : List Nat) (fid cn : Nat) (ids0 : List Nat) :
    ∀ (l : List ChunkRow) (st : OptState),
      (∀ ck ∈ l, ¬ (ck.fileId = fid ∧ ck.chunkNumber = cn)) →
      frozenRow fid cn ids0 st →
      frozenRow fid cn ids0 (balanceSourceChunks H envB avg srcId underIds l st) := by
  intro l
  induction l with
  | nil => intro st _ h; exact h
  | cons ck rest ih =>
      intro st hks h
      unfold balanceSourceChunks
      cases hfn : st.db.findNode srcId with
      | none => exact h
      | some src =>
          dsimp only
          by_cases hload : (src.load : ℚ) ≤ avg
          · rw [if_pos hload]; exact h
          · rw [if_neg hload]
            exact ih _ (fun c hc => hks c (List.mem_cons_of_mem _ hc))
              (frozenRow_balanceMoveChunk H envB avg srcId underIds ck fid cn ids0 st
                (hks ck (List.mem_cons_self _ _)) h)

theorem frozenRow_balanceSource (H : Bytes → Digest) (envB : BalanceEnv)
    (avg : ℚ) (underIds : List Nat) (fid cn : Nat) (ids0 : List Nat)
    (hlen : ids0.length ≤ 1) (st : OptState) (srcId : Nat)
    (h : frozenRow fid cn ids0 st) :
    frozenRow fid cn ids0 (balanceSource H envB avg underIds st srcId) := by
  unfold balanceSource
  cases hfn : st.db.findNode srcId with
  | none => exact h
  | some src =>
      dsimp only
      by_cases hload : (src.load : ℚ) ≤ avg
      · rw [if_pos hload]; exact h
      · rw [if_neg hload]
        apply frozenRow_balanceSourceChunks H envB avg srcId underIds fid cn ids0 _ st
          ?keys h
        case keys =>
          intro ck hck
          rw [mem_stableSort] at hck
          have hmem := List.mem_of_mem_filter hck
          have hpred := List.of_mem_filter hck
          simp only [Bool.and_eq_true, decide_eq_true_eq] at hpred
          intro hc
          have hfind := find?_key_of_mem st.db h.1 ck hmem
          rw [hc.1, hc.2] at hfind
          have hids : st.db.chunkNodeIds fid cn = ck.nodeIds := by
            unfold DB.chunkNodeIds
            rw [hfind]
          rw [h.2] at hids
          rw [hids] at hlen
          have hgt := hpred.2
          omega

/-- C8 part (1): the balancing pass never touches a chunk row with at most
one association — it is neither moved nor copied. -/
theorem frozenRow_balanceLoad (H : Bytes → Digest) (envB : BalanceEnv)
    (fid cn : Nat) (ids0 : List Nat) (hlen : ids0.length ≤ 1) (st : OptState)
    (h : frozenRow fid cn ids0 st) :
    frozenRow fid cn ids0 (balanceLoad H envB st) := by
  simp only [balanceLoad]
  split <;> split
  · exact h
  · exact foldlInv (frozenRow fid cn ids0) _ (fun st' srcId hp =>
      frozenRow_balanceSource H envB _ _ fid cn ids0 hlen st' srcId hp) _ _ h
  · exact h
  · exact foldlInv (frozenRow fid cn ids0) _ (fun st' srcId hp =>
      frozenRow_balanceSource H envB _ _ fid cn ids0 hlen st' srcId hp) _ _ h

/-- `addChunkNode` rewrites the found row, appending the new id. -/
theorem find?_addChunkNode (db : DB) (fid cn nid : Nat) (row : ChunkRow)
    (hf : db.chunks.find? (fun c => c.fileId == fid && c.chunkNumber == cn) = some row)
    (habs : nid ∉ row.nodeIds) :
    (db.addChunkNode fid cn nid).chunks.find?
        (fun c => c.fileId == fid && c.chunkNumber == cn)
      = some { row with nodeIds := row.nodeIds ++ [nid] } := by
  unfold DB.addChunkNode
  rw [show ({ db with chunks := db.chunks.map (fun c =>
      if c.fileId = fid ∧ c.chunkNumber = cn then
        if c.nodeIds.contains nid then c
        else { c with nodeIds := c.nodeIds ++ [nid] }
      else c) } : DB).chunks = db.chunks.map (fun c =>
      if c.fileId = fid ∧ c.chunkNumber = cn then
        if c.nodeIds.contains nid then c
        else { c with nodeIds := c.nodeIds ++ [nid] }
      else c) from rfl]
  rw [find?_map_comm _ _ (by
    intro a
    by_cases h : (a.fileId = fid ∧ a.chunkNumber = cn)
    · by_cases h2 : nid ∈ a.nodeIds <;> simp [h, h2]
    · simp [h])]
  rw [hf]
  have hrow : row.fileId = fid ∧ row.chunkNumber = cn := by
    have := List.find?_some hf
    simp only [Bool.and_eq_true, beq_iff_eq] at this
    exact this
  simp [hrow, habs]

/-- A key with a member association resolves to an existing row. -/
theorem chunkNodeIds_row (db : DB) (fid cn x : Nat)
    (hx : x ∈ db.chunkNodeIds fid cn) :
    ∃ row, db.chunks.find? (fun c => c.fileId == fid && c.chunkNumber == cn) = some row
      ∧ row.nodeIds = db.chunkNodeIds fid cn := by
  cases hf : db.chunks.find? (fun c => c.fileId == fid && c.chunkNumber == cn) with
  | none =>
      exfalso
      unfold DB.chunkNodeIds at hx
      rw [hf] at hx
      simp at hx
  | some row =>
      refine ⟨row, rfl, ?_⟩
      unfold DB.chunkNodeIds
      rw [hf]

theorem delObj_db (st : OptState) (nid fid cn : Nat) :
    (st.delObj nid fid cn).db = st.db := rfl

theorem delObj_objs (st : OptState) (nid fid cn : Nat) :
    (st.delObj nid fid cn).objs = st.objs.filter (fun k => k ≠ (nid, fid, cn)) := rfl

/-- `put_object` leaves the key present. -/
theorem putObj_objs_mem (st : OptState) (nid fid cn : Nat) :
    (nid, fid, cn) ∈ (st.putObj nid fid cn).objs := by
  unfold OptState.putObj
  by_cases h : st.objs.contains (nid, fid, cn) = true
  · rw [if_pos h]
    simpa using h
  · rw [if_neg h]
    exact List.mem_append_right _ (List.mem_singleton_self _)

/-- A fully successful balance move: target association appended, source
association removed, target object written, source object deleted. -/
theorem balanceMoveChunk_move (H : Bytes → Digest) (envB : BalanceEnv)
    (avg : ℚ) (srcId : Nat) (underIds : List Nat) (ck : ChunkRow)
    (st : OptState) (tnode : DNode) (data : Bytes)
    (htarget : balanceTarget avg underIds ck st = some tnode)
    (hfetch : envB.fetch srcId ck.fileId ck.chunkNumber = some data)
    (hhash : (H data == ck.checksum) = true)
    (hput : envB.putOK tnode.id ck.fileId ck.chunkNumber = true)
    (hdel : envB.delOK srcId ck.fileId ck.chunkNumber = true)
    (hsrc : srcId ∈ st.db.chunkNodeIds ck.fileId ck.chunkNumber)
    (hnotin : tnode.id ∉ st.db.chunkNodeIds ck.fileId ck.chunkNumber) :
    (balanceMoveChunk H envB avg srcId underIds ck st).db.chunkNodeIds
        ck.fileId ck.chunkNumber
      = (st.db.chunkNodeIds ck.fileId ck.chunkNumber ++ [tnode.id]).filter
          (fun i => i ≠ srcId)
    ∧ (tnode.id, ck.fileId, ck.chunkNumber)
        ∈ (balanceMoveChunk H envB avg srcId underIds ck st).objs
    ∧ (srcId, ck.fileId, ck.chunkNumber)
        ∉ (balanceMoveChunk H envB avg srcId underIds ck st).objs := by
  have htne : tnode.id ≠ srcId := fun he => hnotin (he ▸ hsrc)
  obtain ⟨row, hfrow, hrowids⟩ :=
    chunkNodeIds_row st.db ck.fileId ck.chunkNumber srcId hsrc
  have habs : tnode.id ∉ row.nodeIds := by rw [hrowids]; exact hnotin
  have hadd := find?_addChunkNode st.db ck.fileId ck.chunkNumber tnode.id row hfrow habs
  have hremids := chunkNodeIds_removeChunkNode_self
    (st.db.addChunkNode ck.fileId ck.chunkNumber tnode.id) ck.fileId ck.chunkNumber
    srcId { row with nodeIds := row.nodeIds ++ [tnode.id] } hadd
  have hcond : ¬ (((st.db.addChunkNode ck.fileId ck.chunkNumber tnode.id).chunkNodeIds
      ck.fileId ck.chunkNumber).filter (fun i => i ≠ srcId)).isEmpty = true := by
    have haddids := chunkNodeIds_addChunkNode_self st.db ck.fileId ck.chunkNumber
      tnode.id row hfrow habs
    rw [haddids]
    intro hemp
    have hmem : tnode.id ∈ (row.nodeIds ++ [tnode.id]).filter
        (fun i => decide (i ≠ srcId)) := by
      rw [List.mem_filter]
      exact ⟨List.mem_append_right _ (List.mem_singleton_self _), by simp [htne]⟩
    have hemp2 : (row.nodeIds ++ [tnode.id]).filter (fun i => decide (i ≠ srcId)) = [] := by
      simpa using hemp
    rw [hemp2] at hmem
    simp at hmem
  rw [balanceMoveChunk_eq, htarget]
  dsimp only
  unfold balanceMoveGo
  rw [hfetch]
  dsimp only
  rw [if_neg (not_not_intro hhash), if_neg (not_not_intro hput)]
  simp only [putObj_db]
  rw [if_pos hcond, if_pos hdel]
  dsimp only
  refine ⟨?_, ?_, ?_⟩
  · rw [chunkNodeIds_congr _ _ (bumpTgtStats_chunks _ _ _),
      chunkNodeIds_congr _ _ (bumpSrcStats_chunks _ _ _), delObj_db]
    dsimp only
    rw [hremids]
    rw [show ({ row with nodeIds := row.nodeIds ++ [tnode.id] } : ChunkRow).nodeIds
        = row.nodeIds ++ [tnode.id] from rfl]
    rw [hrowids]
  · rw [delObj_objs]
    dsimp only
    rw [List.mem_filter]
    exact ⟨putObj_objs_mem st tnode.id ck.fileId ck.chunkNumber, by simp [htne]⟩
  · intro hmem
    rw [delObj_objs] at hmem
    dsimp only at hmem
    have hp := (List.mem_filter.mp hmem).2
    simp at hp

/-! ## C8: load balancing moves versus single-association chunks -/

/-- An underloaded target backend for the balancing scenarios. -/
def nodeC8t : DNode := DNode.fresh 3 "http://localhost:9102"

/-- An overloaded source backend (load 10) for the balancing scenarios. -/
def nodeC8s : DNode := { DNode.fresh 1 "http://localhost:9100" with load := 10 }

/-- Balancing scenario with one overloaded and one underloaded backend and a
chunk held only on the overloaded one. -/
def stC8 : OptState :=
  ⟨⟨[nodeC8s, nodeC8t], [(⟨7, "f.bin", 4⟩ : FileRow)],
    [(⟨7, 0, [5], 4, [1]⟩ : ChunkRow)]⟩, [(1, 7, 0)]⟩

/-- A remote environment for balancing in which every transfer succeeds. -/
def envC8 : BalanceEnv :=
  ⟨fun _ _ _ => some [5], fun _ _ _ => true, fun _ _ _ => true⟩

/-- Balancing scenario for the witness: a two-association chunk on the
overloaded backend plus a single-association chunk of another file. -/
def stC8w : OptState :=
  ⟨⟨[nodeC8s, nodeC8t],
    [(⟨7, "f.bin", 4⟩ : FileRow), (⟨9, "g.bin", 1⟩ : FileRow)],
    [(⟨7, 0, [5], 4, [1, 2]⟩ : ChunkRow), (⟨9, 0, [6], 1, [1]⟩ : ChunkRow)]⟩,
   [(1, 7, 0), (2, 7, 0)]⟩

/-- The movable chunk row of `stC8w`. -/
def ckC8w : ChunkRow := ⟨7, 0, [5], 4, [1, 2]⟩

/-- C8, counterexample: node 1 (load 10) is overloaded (10 > avg·1.2 = 6) and
node 3 (load 0) is underloaded (0 < avg·0.8 = 4), the only chunk sits solely
on node 1 — yet the full balancing pass changes nothing: the single-
association chunk is not copied to the underloaded backend, contradicting the
claim that it would be copied without removing the source copy. -/
theorem single_replica_chunk_not_copied :
    ((10 : ℚ) > (5 : ℚ) * (1.2 : ℚ))
    ∧ ((0 : ℚ) < (5 : ℚ) * (0.8 : ℚ))
    ∧ stC8.db.chunkNodeIds 7 0 = [1]
    ∧ balanceLoad id envC8 stC8 = stC8 := by with_unfolding_all decide

/-- C8 (amended): a chunk with more than one association is moved when all
remote operations succeed — the target association is appended, the source
association then removed, the target object written and the source object
deleted (the post-add association list always retains another holder, so the
delete always fires); but a chunk with at most one association is skipped
entirely by the balancing pass — neither moved nor copied — because the
candidate filter requires an association count above one. -/
theorem balance_moves_multi_skips_single (H : Bytes → Digest)
    (envB : BalanceEnv) (st : OptState) :
    (∀ fid cn ids0, ids0.length ≤ 1 →
        chunkKeysUnique st.db → st.db.chunkNodeIds fid cn = ids0 →
        chunkKeysUnique (balanceLoad H envB st).db ∧
        (balanceLoad H envB st).db.chunkNodeIds fid cn = ids0)
    ∧ (∀ avg srcId underIds ck tnode data,
        balanceTarget avg underIds ck st = some tnode →
        envB.fetch srcId ck.fileId ck.chunkNumber = some data →
        (H data == ck.checksum) = true →
        envB.putOK tnode.id ck.fileId ck.chunkNumber = true →
        envB.delOK srcId ck.fileId ck.chunkNumber = true →
        srcId ∈ st.db.chunkNodeIds ck.fileId ck.chunkNumber →
        tnode.id ∉ st.db.chunkNodeIds ck.fileId ck.chunkNumber →
        (balanceMoveChunk H envB avg srcId underIds ck st).db.chunkNodeIds
            ck.fileId ck.chunkNumber
          = (st.db.chunkNodeIds ck.fileId ck.chunkNumber ++ [tnode.id]).filter
              (fun i => i ≠ srcId)
        ∧ (tnode.id, ck.fileId, ck.chunkNumber)
            ∈ (balanceMoveChunk H envB avg srcId underIds ck st).objs
        ∧ (srcId, ck.fileId, ck.chunkNumber)
            ∉ (balanceMoveChunk H envB avg srcId underIds ck st).objs) := by
  constructor
  · intro fid cn ids0 hlen hu hids
    exact frozenRow_balanceLoad H envB fid cn ids0 hlen st ⟨hu, hids⟩
  · intro avg srcId underIds ck tnode data ht hf hh hp hd hs hn
    exact balanceMoveChunk_move H envB avg srcId underIds ck st tnode data
      ht hf hh hp hd hs hn

/-- Witness for C8: in `stC8w`, the single-association chunk of file 9 is
untouched by the full balancing pass, while the two-association chunk of
file 7 is moved from node 1 to node 3 with its object deleted at the
source. -/
theorem balance_moves_multi_skips_single_witness :
    (balanceLoad id envC8 stC8w).db.chunkNodeIds 9 0 = [1]
    ∧ (balanceMoveChunk id envC8 5 1 [3] ckC8w stC8w).db.chunkNodeIds
        ckC8w.fileId ckC8w.chunkNumber = [2, 3]
    ∧ (nodeC8t.id, ckC8w.fileId, ckC8w.chunkNumber)
        ∈ (balanceMoveChunk id envC8 5 1 [3] ckC8w stC8w).objs
    ∧ (1, ckC8w.fileId, ckC8w.chunkNumber)
        ∉ (balanceMoveChunk id envC8 5 1 [3] ckC8w stC8w).objs := by
  have h := balance_moves_multi_skips_single id envC8 stC8w
  have h1 := (h.1 9 0 [1] (by decide)
    ((by decide : (([(7, 0), (9, 0)] : List (Nat × Nat))).Nodup)) (by decide)).2
  have h2 := h.2 5 1 [3] ckC8w nodeC8t [5] (by with_unfolding_all decide) rfl
    (by decide) rfl rfl (by decide) (by decide)
  refine ⟨h1, ?_, h2.2.1, h2.2.2⟩
  rw [h2.1]
  decide

